import Mathlib

/-!
Verification of the query compilation and paginated client-filtering engine of
the mcp-outlook repository, against its natural-language specification.

The TypeScript sources are shallowly embedded:
* JS strings are modelled as `List Char` (named `Str`).  Only well-formed
  strings (no lone surrogates) are representable, which matches every string
  the engine manufactures.  `String.prototype.toLowerCase` / `trim` and the
  `\s` regex class are modelled over the ASCII range exercised by the code.
* `Buffer`'s UTF-8 and base64 conversions are implemented over byte lists
  (`List Nat`, each byte `< 256`), with the usual replacement-character
  behaviour for invalid UTF-8 input.
* `JSON.stringify` of the fixed token payload and a recursive-descent model of
  `JSON.parse` are implemented over `Str`.  JSON numbers are modelled as
  optionally-signed integer literals; the codec only ever produces and
  consumes integers.
* Throwing functions return `Except Str`; the possibly-unbounded page loop of
  the search executor takes explicit fuel and returns `Option`.
* The remote Microsoft Graph endpoint is modelled as a deterministic function
  from the constructed page request to a page (`Remote`); the executor
  additionally returns the trace of requests it issued, which is the
  observable record of its interaction with the remote.
-/

namespace Outlook


/-- JS string model: a list of Unicode scalar values. -/
abbrev Str := List Char

/-- Characters treated as whitespace by `trim` / the `\s` class (ASCII range;
the engine only ever manufactures ASCII whitespace). -/
def wsChar (c : Char) : Bool :=
  c = ' ' ∨ c = '\t' ∨ c = '\n' ∨ c = '\r' ∨ c.toNat = 11 ∨ c.toNat = 12

/-- `String.prototype.trim`. -/
def trimStr (s : Str) : Str :=
  ((s.dropWhile wsChar).reverse.dropWhile wsChar).reverse

/-- ASCII lower-casing of one character (`String.prototype.toLowerCase` on the
code points the engine handles). -/
def lowerChar (c : Char) : Char :=
  if 'A' ≤ c ∧ c ≤ 'Z' then Char.ofNat (c.toNat + 32) else c

/-- `String.prototype.toLowerCase`. -/
def lowerStr (s : Str) : Str := s.map lowerChar

/-- `String.prototype.includes`: substring containment. -/
def strContains : Str → Str → Bool
  | _, [] => true
  | [], _ :: _ => false
  | c :: t, n => n.isPrefixOf (c :: t) || strContains t n

/-- Helper for `collapseWs`: the flag records whether the previous character
was whitespace (so a run contributes a single space). -/
def collapseWsAux : Bool → Str → Str
  | _, [] => []
  | prevWs, c :: t =>
    if wsChar c then
      if prevWs then collapseWsAux true t else ' ' :: collapseWsAux true t
    else c :: collapseWsAux false t

/-- `s.replace(/\s+/g, ' ')`: collapse each whitespace run to one space. -/
def collapseWs (s : Str) : Str := collapseWsAux false s

/-! ## UTF-8 (model of `Buffer.from(str, 'utf8')` and its inverse) -/

/-- UTF-8 encoding of one scalar value. -/
def utf8EncodeChar (c : Char) : List Nat :=
  if c.toNat < 0x80 then [c.toNat]
  else if c.toNat < 0x800 then [0xC0 + c.toNat / 64, 0x80 + c.toNat % 64]
  else if c.toNat < 0x10000 then
    [0xE0 + c.toNat / 4096, 0x80 + c.toNat / 64 % 64, 0x80 + c.toNat % 64]
  else
    [0xF0 + c.toNat / 262144, 0x80 + c.toNat / 4096 % 64, 0x80 + c.toNat / 64 % 64,
      0x80 + c.toNat % 64]

/-- UTF-8 encoding of a string. -/
def utf8Encode : Str → List Nat
  | [] => []
  | c :: t => utf8EncodeChar c ++ utf8Encode t

/-- U+FFFD, emitted by the decoder for invalid input. -/
def uRepl : Char := Char.ofNat 0xFFFD

/-- One UTF-8 decoding step: decode one scalar from the head byte `b1` and the
remaining bytes, returning the scalar and the bytes not consumed. -/
def utf8Step (b1 : Nat) (t : List Nat) : Char × List Nat :=
  if b1 < 0x80 then (Char.ofNat b1, t)
  else if b1 < 0xC0 then (uRepl, t)
  else if b1 < 0xE0 then
    match t with
    | b2 :: t2 =>
      if 0x80 ≤ b2 ∧ b2 < 0xC0 ∧ 0x80 ≤ (b1 - 0xC0) * 64 + (b2 - 0x80) then
        (Char.ofNat ((b1 - 0xC0) * 64 + (b2 - 0x80)), t2)
      else (uRepl, t)
    | [] => (uRepl, t)
  else if b1 < 0xF0 then
    match t with
    | b2 :: b3 :: t3 =>
      if 0x80 ≤ b2 ∧ b2 < 0xC0 ∧ 0x80 ≤ b3 ∧ b3 < 0xC0 ∧
          0x800 ≤ (b1 - 0xE0) * 4096 + (b2 - 0x80) * 64 + (b3 - 0x80) ∧
          ((b1 - 0xE0) * 4096 + (b2 - 0x80) * 64 + (b3 - 0x80) < 0xD800 ∨
            0xDFFF < (b1 - 0xE0) * 4096 + (b2 - 0x80) * 64 + (b3 - 0x80)) then
        (Char.ofNat ((b1 - 0xE0) * 4096 + (b2 - 0x80) * 64 + (b3 - 0x80)), t3)
      else (uRepl, t)
    | _ => (uRepl, t)
  else if b1 < 0xF8 then
    match t with
    | b2 :: b3 :: b4 :: t4 =>
      if 0x80 ≤ b2 ∧ b2 < 0xC0 ∧ 0x80 ≤ b3 ∧ b3 < 0xC0 ∧ 0x80 ≤ b4 ∧ b4 < 0xC0 ∧
          0x10000 ≤ (b1 - 0xF0) * 262144 + (b2 - 0x80) * 4096 + (b3 - 0x80) * 64 +
            (b4 - 0x80) ∧
          (b1 - 0xF0) * 262144 + (b2 - 0x80) * 4096 + (b3 - 0x80) * 64 +
            (b4 - 0x80) < 0x110000 then
        (Char.ofNat ((b1 - 0xF0) * 262144 + (b2 - 0x80) * 4096 + (b3 - 0x80) * 64 +
          (b4 - 0x80)), t4)
      else (uRepl, t)
    | _ => (uRepl, t)
  else (uRepl, t)

/-- Fuelled UTF-8 decoding loop; each step consumes at least one byte, so
`fuel = length` never runs out. -/
def utf8DecodeF : Nat → List Nat → Str
  | _, [] => []
  | 0, _ :: _ => []
  | f + 1, b1 :: t => (utf8Step b1 t).1 :: utf8DecodeF f (utf8Step b1 t).2

/-- Total UTF-8 decoding (invalid sequences yield U+FFFD). -/
def utf8Decode (bs : List Nat) : Str := utf8DecodeF bs.length bs

/-! ## Base64 / base64url (model of `Buffer`'s base64 codec and the
`base64UrlEncode` / `base64UrlDecode` helpers of `pagination-token.ts`) -/

/-- The standard base64 alphabet. -/
def sextetChar (n : Nat) : Char :=
  if n < 26 then Char.ofNat (65 + n)
  else if n < 52 then Char.ofNat (97 + (n - 26))
  else if n < 62 then Char.ofNat (48 + (n - 52))
  else if n = 62 then '+'
  else '/'

/-- Inverse alphabet lookup (`none` on non-alphabet characters, which Node's
base64 decoder skips). -/
def charSextet (c : Char) : Option Nat :=
  if 'A' ≤ c ∧ c ≤ 'Z' then some (c.toNat - 65)
  else if 'a' ≤ c ∧ c ≤ 'z' then some (c.toNat - 97 + 26)
  else if '0' ≤ c ∧ c ≤ '9' then some (c.toNat - 48 + 52)
  else if c = '+' then some 62
  else if c = '/' then some 63
  else none

/-- The sextet stream of a byte list (3 bytes → 4 sextets, with the short
final group of standard base64). -/
def sextetsOf : List Nat → List Nat
  | [] => []
  | [a] => [a / 4, a % 4 * 16]
  | [a, b] => [a / 4, a % 4 * 16 + b / 16, b % 16 * 4]
  | a :: b :: c :: r =>
    a / 4 :: (a % 4 * 16 + b / 16) :: (b % 16 * 4 + c / 64) :: c % 64 ::
      sextetsOf r

/-- `Buffer.prototype.toString('base64')`: alphabet characters plus `=`
padding to a multiple of four. -/
def b64core (bs : List Nat) : Str :=
  (sextetsOf bs).map sextetChar ++ List.replicate ((3 - bs.length % 3) % 3) '='

/-- Regroup a sextet stream into bytes (4 sextets → 3 bytes, short final
groups as in Node's forgiving base64 decoder; a lone trailing sextet is
dropped). -/
def groupDecode : List Nat → List Nat
  | s1 :: s2 :: s3 :: s4 :: rest =>
    (s1 * 4 + s2 / 16) :: (s2 % 16 * 16 + s3 / 4) :: (s3 % 4 * 64 + s4) ::
      groupDecode rest
  | [s1, s2, s3] => [s1 * 4 + s2 / 16, s2 % 16 * 16 + s3 / 4]
  | [s1, s2] => [s1 * 4 + s2 / 16]
  | _ => []

/-- `Buffer.from(str, 'base64')`: non-alphabet characters (including `=`) are
ignored, the rest regrouped into bytes. -/
def nodeB64Bytes (s : Str) : List Nat :=
  groupDecode (s.filterMap charSextet)

/-- The `+` → `-`, `/` → `_` substitution of `base64UrlEncode`. -/
def replUrl (c : Char) : Char :=
  if c = '+' then '-' else if c = '/' then '_' else c

/-- The `-` → `+`, `_` → `/` substitution of `base64UrlDecode`. -/
def unreplUrl (c : Char) : Char :=
  if c = '-' then '+' else if c = '_' then '/' else c

/-- `.replace(/=+$/, '')`: strip trailing `=`. -/
def stripEqEnd (s : Str) : Str :=
  (s.reverse.dropWhile (fun c => c = '=')).reverse

/-- `base64UrlEncode` of `pagination-token.ts`. -/
def base64UrlEncode (s : Str) : Str :=
  stripEqEnd ((b64core (utf8Encode s)).map replUrl)

/-- `base64UrlDecode` of `pagination-token.ts`. -/
def base64UrlDecode (s : Str) : Str :=
  let padded := s.map unreplUrl
  let padLength := (4 - padded.length % 4) % 4
  let normalized := padded ++ List.replicate padLength '='
  utf8Decode (nodeB64Bytes normalized)

/-! ## JSON (model of `JSON.stringify` on the token payload and `JSON.parse`)

JSON numbers are modelled as optionally-signed integer literals (the codec
only produces and consumes integers); `\u` escapes denoting surrogate halves
are rejected rather than paired. -/

inductive Json where
  | jnull
  | jbool (b : Bool)
  | jnum (n : Int)
  | jstr (s : Str)
  | jarr (xs : List Json)
  | jobj (fields : List (Str × Json))

/-- `'{'` (written via its code point to keep it out of string literals). -/
def lbraceC : Char := Char.ofNat 123

/-- `'}'`. -/
def rbraceC : Char := Char.ofNat 125

def strL (s : String) : Str := s.data

def hexDigitChar (d : Nat) : Char :=
  if d < 10 then Char.ofNat (48 + d) else Char.ofNat (87 + d)

def digitChar (d : Nat) : Char := Char.ofNat (48 + d)

/-- `JSON.stringify` escaping of one character inside a string literal. -/
def jsonEscapeChar (c : Char) : Str :=
  if c = '"' then ['\\', '"']
  else if c = '\\' then ['\\', '\\']
  else if c.toNat = 8 then ['\\', 'b']
  else if c = '\t' then ['\\', 't']
  else if c = '\n' then ['\\', 'n']
  else if c.toNat = 12 then ['\\', 'f']
  else if c = '\r' then ['\\', 'r']
  else if c.toNat < 0x20 then
    ['\\', 'u', '0', '0', hexDigitChar (c.toNat / 16), hexDigitChar (c.toNat % 16)]
  else [c]

def jsonEscape : Str → Str
  | [] => []
  | c :: t => jsonEscapeChar c ++ jsonEscape t

/-- A JSON string literal: quote, escaped body, quote. -/
def quoteStr (s : Str) : Str := '"' :: (jsonEscape s ++ ['"'])

/-- Fuelled digit extraction (`fuel = n` always suffices since `n / 10 < n`). -/
def natDigitsF : Nat → Nat → List Nat
  | 0, n => [n % 10]
  | f + 1, n => if n < 10 then [n] else natDigitsF f (n / 10) ++ [n % 10]

def natDigits (n : Nat) : List Nat := natDigitsF n n

/-- Decimal rendering of a natural number. -/
def natToStr (n : Nat) : Str := (natDigits n).map digitChar

/-- Rendering of a scalar JSON value (string or integer), as emitted by
`JSON.stringify`. -/
def renderScalar : Json → Str
  | Json.jstr s => quoteStr s
  | Json.jnum n => if n < 0 then '-' :: natToStr (-n).toNat else natToStr n.toNat
  | _ => []

def renderMember (m : Str × Json) : Str :=
  quoteStr m.1 ++ ':' :: renderScalar m.2

/-- Comma-joined `"key":value` members. -/
def renderMembers : List (Str × Json) → Str
  | [] => []
  | [m] => renderMember m
  | m :: ms => renderMember m ++ ',' :: renderMembers ms

/-- `JSON.stringify` of the v2 token payload `{v, skipToken, offset, mode?}`,
in property insertion order. -/
def serializePayload (st : Str) (off : Nat) (modeField : Option Str) : Str :=
  lbraceC ::
    (renderMembers
      ([(strL "v", Json.jnum 2), (strL "skipToken", Json.jstr st),
        (strL "offset", Json.jnum (off : Int))] ++
        (match modeField with
         | some m => [(strL "mode", Json.jstr m)]
         | none => [])) ++ [rbraceC])

/-! ### A recursive-descent model of `JSON.parse` -/

def jsonWsChar (c : Char) : Bool :=
  c = ' ' ∨ c = '\t' ∨ c = '\n' ∨ c = '\r'

def skipWs (s : Str) : Str := s.dropWhile jsonWsChar

def isDigit (c : Char) : Bool := '0' ≤ c ∧ c ≤ '9'

def parseHexDigit (c : Char) : Option Nat :=
  if '0' ≤ c ∧ c ≤ '9' then some (c.toNat - 48)
  else if 'a' ≤ c ∧ c ≤ 'f' then some (c.toNat - 97 + 10)
  else if 'A' ≤ c ∧ c ≤ 'F' then some (c.toNat - 65 + 10)
  else none

def escCharOf (e : Char) : Option Char :=
  if e = '"' then some '"'
  else if e = '\\' then some '\\'
  else if e = '/' then some '/'
  else if e = 'b' then some (Char.ofNat 8)
  else if e = 'f' then some (Char.ofNat 12)
  else if e = 'n' then some '\n'
  else if e = 'r' then some '\r'
  else if e = 't' then some '\t'
  else none

/-- Parse a JSON string body (after the opening quote). -/
def pStringBody : Str → Option (Str × Str)
  | [] => none
  | c :: t =>
    if c = '"' then some ([], t)
    else if c = '\\' then
      match t with
      | [] => none
      | e :: t2 =>
        if e = 'u' then
          match t2 with
          | h1 :: h2 :: h3 :: h4 :: t3 =>
            match parseHexDigit h1, parseHexDigit h2, parseHexDigit h3,
                parseHexDigit h4 with
            | some a1, some a2, some a3, some a4 =>
              if a1 * 4096 + a2 * 256 + a3 * 16 + a4 < 0xD800 ∨
                  0xDFFF < a1 * 4096 + a2 * 256 + a3 * 16 + a4 then
                (pStringBody t3).map
                  (fun p => (Char.ofNat (a1 * 4096 + a2 * 256 + a3 * 16 + a4) :: p.1,
                    p.2))
              else none
            | _, _, _, _ => none
          | _ => none
        else
          match escCharOf e with
          | some ch => (pStringBody t2).map (fun p => (ch :: p.1, p.2))
          | none => none
    else if c.toNat < 0x20 then none
    else (pStringBody t).map (fun p => (c :: p.1, p.2))

/-- Consume a run of digits, accumulating their value. -/
def takeDigits : Str → Nat → Nat × Str
  | [], acc => (acc, [])
  | c :: t, acc =>
    if isDigit c then takeDigits t (acc * 10 + (c.toNat - 48)) else (acc, c :: t)

/-- Parse a JSON number (integer literals in this model). -/
def pNumber : Str → Option (Int × Str)
  | [] => none
  | c :: t =>
    if c = '-' then
      match t with
      | d :: t2 =>
        if isDigit d then
          some (-((takeDigits t2 (d.toNat - 48)).1 : Int),
            (takeDigits t2 (d.toNat - 48)).2)
        else none
      | [] => none
    else if isDigit c then
      some (((takeDigits t (c.toNat - 48)).1 : Int), (takeDigits t (c.toNat - 48)).2)
    else none

mutual

/-- Parse one JSON value (leading whitespace allowed). -/
def pValue : Nat → Str → Option (Json × Str)
  | 0, _ => none
  | f + 1, s =>
    match skipWs s with
    | [] => none
    | c :: t =>
      if c = '"' then
        match pStringBody t with
        | some (str, r) => some (Json.jstr str, r)
        | none => none
      else if c = lbraceC then
        match skipWs t with
        | c2 :: t2 =>
          if c2 = rbraceC then some (Json.jobj [], t2)
          else
            match pMembers f t with
            | some (ms, r) => some (Json.jobj ms, r)
            | none => none
        | [] => none
      else if c = '[' then
        match skipWs t with
        | c2 :: t2 =>
          if c2 = ']' then some (Json.jarr [], t2)
          else
            match pElements f t with
            | some (vs, r) => some (Json.jarr vs, r)
            | none => none
        | [] => none
      else if c = 't' then
        if ['r', 'u', 'e'].isPrefixOf t then some (Json.jbool true, t.drop 3)
        else none
      else if c = 'f' then
        if ['a', 'l', 's', 'e'].isPrefixOf t then some (Json.jbool false, t.drop 4)
        else none
      else if c = 'n' then
        if ['u', 'l', 'l'].isPrefixOf t then some (Json.jnull, t.drop 3) else none
      else
        match pNumber (c :: t) with
        | some (n, r) => some (Json.jnum n, r)
        | none => none

/-- Parse the members of a JSON object (after the opening brace, at least
one member). -/
def pMembers : Nat → Str → Option (List (Str × Json) × Str)
  | 0, _ => none
  | f + 1, s =>
    match skipWs s with
    | [] => none
    | c :: t =>
      if c = '"' then
        match pStringBody t with
        | some (key, r1) =>
          match skipWs r1 with
          | ':' :: r2 =>
            match pValue f r2 with
            | some (v, r3) =>
              match skipWs r3 with
              | [] => none
              | c2 :: r4 =>
                if c2 = ',' then
                  match pMembers f r4 with
                  | some (ms, r5) => some ((key, v) :: ms, r5)
                  | none => none
                else if c2 = rbraceC then some ([(key, v)], r4)
                else none
            | none => none
          | _ => none
        | none => none
      else none

/-- Parse the elements of a JSON array (after the opening bracket, at least
one element). -/
def pElements : Nat → Str → Option (List Json × Str)
  | 0, _ => none
  | f + 1, s =>
    match pValue f s with
    | some (v, r) =>
      match skipWs r with
      | [] => none
      | c :: r2 =>
        if c = ',' then
          match pElements f r2 with
          | some (vs, r3) => some (v :: vs, r3)
          | none => none
        else if c = ']' then some ([v], r2)
        else none
    | none => none

end

/-- Total model of `JSON.parse`: `none` when the real call would throw. -/
def jsonParse (s : Str) : Option Json :=
  match pValue (s.length + 1) s with
  | some (j, r) => if skipWs r = [] then some j else none
  | none => none

/-! ## Pagination token codec (`pagination-token.ts`) -/

/-- The `v2:` version tag. -/
def v2Tag : Str := strL "v2:"

/-- `FIRST_PAGE_SKIP_TOKEN`. -/
def firstPageSkipToken : Str := strL "__mcp_outlook_first_page__"

/-- Result shape of `decodeNextPageToken`. -/
structure DecodeTokenResult where
  skipToken : Option Str
  offset : Nat
  mode : Option Str
  legacy : Bool
deriving DecidableEq, Repr

/-- JS property access `obj.k` on a parsed JSON value (`none` = `undefined`;
with duplicate keys the last assignment wins, as in `JSON.parse`). -/
def lookupLast : List (Str × Json) → Str → Option Json
  | [], _ => none
  | (k', v) :: rest, k =>
    match lookupLast rest k with
    | some r => some r
    | none => if k' = k then some v else none

def getField (j : Json) (k : Str) : Option Json :=
  match j with
  | Json.jobj fs => lookupLast fs k
  | _ => none

/-- The `typeof params.mode === 'string' && params.mode.length > 0` guard:
the `mode` property is attached only for non-empty strings. -/
def modeNormalize (mode : Option Str) : Option Str :=
  match mode with
  | some m => if m = [] then none else some m
  | none => none

/-- `encodeNextPageToken({skipToken?, offset, mode?})`.  `Math.trunc` is the
identity on the integer offsets this model quantifies over, and
`Math.max(0, ·)` composed with it is `Int.toNat`. -/
def encodeNextPageToken (skipToken : Option Str) (offset : Int) (mode : Option Str)
    : Str :=
  v2Tag ++
    base64UrlEncode
      (serializePayload (skipToken.getD firstPageSkipToken) offset.toNat
        (modeNormalize mode))

/-- JS `typeof x === 'string'` view of a property: the string value when the
property is a string, else `none`. -/
def asStr : Option Json → Option Str
  | some (Json.jstr s) => some s
  | _ => none

/-- JS `typeof x === 'number' && Number.isInteger(x)` view of a property (all
numbers of this model are integers). -/
def asNum : Option Json → Option Int
  | some (Json.jnum n) => some n
  | _ => none

/-- The `try` block of `decodeNextPageToken`: base64url-decode, `JSON.parse`,
then the sequential v2 checks (`v !== 2`, cursor a non-blank string, offset a
non-negative integer); `none` where the JS code throws. -/
def tryDecodeV2 (encoded : Str) : Option DecodeTokenResult :=
  match jsonParse (base64UrlDecode encoded) with
  | none => none
  | some parsed =>
    match asNum (getField parsed (strL "v")) with
    | none => none
    | some vnum =>
      if vnum = 2 then
        match asStr (getField parsed (strL "skipToken")) with
        | none => none
        | some st =>
          if trimStr st = [] then none
          else
            match asNum (getField parsed (strL "offset")) with
            | none => none
            | some off =>
              if off < 0 then none
              else
                some
                  { skipToken := if st = firstPageSkipToken then none else some st
                    offset := off.toNat
                    mode := asStr (getField parsed (strL "mode"))
                    legacy := false }
      else none

/-- `decodeNextPageToken(token | undefined)`; total. -/
def decodeNextPageToken (token : Option Str) : DecodeTokenResult :=
  match token with
  | none => ⟨none, 0, none, true⟩
  | some t =>
    if t = [] then ⟨none, 0, none, true⟩
    else if v2Tag.isPrefixOf t then
      match tryDecodeV2 (t.drop 3) with
      | some r => r
      | none => ⟨some t, 0, none, true⟩
    else ⟨some t, 0, none, true⟩

/-- The next character, if any, is not a decimal digit (so a digit run ends). -/
def noDigitHead : Str → Prop
  | [] => True
  | c :: _ => isDigit c = false

/-- Scalar payload values: strings and (embedded-natural) integers. -/
def isScalarPayload (v : Json) : Prop :=
  (∃ s, v = Json.jstr s) ∨ (∃ n : Nat, v = Json.jnum (n : Int))

/-- The parsed field list of the serialized v2 payload. -/
def payloadFields (st : Str) (off : Nat) (modeField : Option Str) :
    List (Str × Json) :=
  [(strL "v", Json.jnum 2), (strL "skipToken", Json.jstr st),
    (strL "offset", Json.jnum (off : Int))] ++
    (match modeField with
     | some m => [(strL "mode", Json.jstr m)]
     | none => [])

/-- The failure conditions of the v2 token interpretation, phrased per the
specification: the decoded payload fails to parse as JSON, carries a wrong
version, or has a malformed cursor (not a string, or blank) or offset (not a
non-negative integer). -/
def malformedV2 (enc : Str) : Prop :=
  match jsonParse (base64UrlDecode enc) with
  | none => True
  | some parsed =>
    asNum (getField parsed (strL "v")) ≠ some 2
    ∨ (match asStr (getField parsed (strL "skipToken")) with
       | some st => trimStr st = []
       | none => True)
    ∨ (match asNum (getField parsed (strL "offset")) with
       | some off => off < 0
       | none => True)

/-! ## Query and message model (`outlook-query-schema.ts`,
`@microsoft/microsoft-graph-types`)

Optional JS object properties are `Option`s; a missing property and a
property explicitly set to `undefined` coincide, as they do for every check
the engine performs. -/

/-- `FieldOperator`: `{$any?, $all?, $none?}`. -/
structure FieldOp where
  anyV : Option (List Str)
  allV : Option (List Str)
  noneV : Option (List Str)
deriving Repr

/-- A field value: plain string or operator object. -/
inductive QVal where
  | str (s : Str)
  | op (o : FieldOp)
deriving Repr

/-- `{$gte?, $lt?}`. -/
structure DateOp where
  gte : Option Str
  lt : Option Str
deriving Repr

/-- `OutlookQuery`: one node of the recursive query tree. -/
inductive Query where
  | mk
    (andQ : Option (List Query))
    (orQ : Option (List Query))
    (notQ : Option Query)
    (fromF : Option QVal)
    (toF : Option QVal)
    (ccF : Option QVal)
    (bccF : Option QVal)
    (subjectF : Option QVal)
    (textF : Option QVal)
    (bodyF : Option QVal)
    (categoriesF : Option QVal)
    (labelF : Option QVal)
    (exactPhrase : Option Str)
    (hasAttachment : Option Bool)
    (isRead : Option Bool)
    (importance : Option Str)
    (date : Option DateOp)
    (kqlQuery : Option Str)

def Query.andQ : Query → Option (List Query) | .mk a _ _ _ _ _ _ _ _ _ _ _ _ _ _ _ _ _ => a

def Query.orQ : Query → Option (List Query) | .mk _ a _ _ _ _ _ _ _ _ _ _ _ _ _ _ _ _ => a

def Query.notQ : Query → Option Query | .mk _ _ a _ _ _ _ _ _ _ _ _ _ _ _ _ _ _ => a

def Query.fromF : Query → Option QVal | .mk _ _ _ a _ _ _ _ _ _ _ _ _ _ _ _ _ _ => a

def Query.toF : Query → Option QVal | .mk _ _ _ _ a _ _ _ _ _ _ _ _ _ _ _ _ _ => a

def Query.ccF : Query → Option QVal | .mk _ _ _ _ _ a _ _ _ _ _ _ _ _ _ _ _ _ => a

def Query.bccF : Query → Option QVal | .mk _ _ _ _ _ _ a _ _ _ _ _ _ _ _ _ _ _ => a

def Query.subjectF : Query → Option QVal | .mk _ _ _ _ _ _ _ a _ _ _ _ _ _ _ _ _ _ => a

def Query.textF : Query → Option QVal | .mk _ _ _ _ _ _ _ _ a _ _ _ _ _ _ _ _ _ => a

def Query.bodyF : Query → Option QVal | .mk _ _ _ _ _ _ _ _ _ a _ _ _ _ _ _ _ _ => a

def Query.categoriesF : Query → Option QVal | .mk _ _ _ _ _ _ _ _ _ _ a _ _ _ _ _ _ _ => a

def Query.labelF : Query → Option QVal | .mk _ _ _ _ _ _ _ _ _ _ _ a _ _ _ _ _ _ => a

def Query.exactPhrase : Query → Option Str | .mk _ _ _ _ _ _ _ _ _ _ _ _ a _ _ _ _ _ => a

def Query.hasAttachment : Query → Option Bool | .mk _ _ _ _ _ _ _ _ _ _ _ _ _ a _ _ _ _ => a

def Query.isRead : Query → Option Bool | .mk _ _ _ _ _ _ _ _ _ _ _ _ _ _ a _ _ _ => a

def Query.importance : Query → Option Str | .mk _ _ _ _ _ _ _ _ _ _ _ _ _ _ _ a _ _ => a

def Query.date : Query → Option DateOp | .mk _ _ _ _ _ _ _ _ _ _ _ _ _ _ _ _ a _ => a

def Query.kqlQuery : Query → Option Str | .mk _ _ _ _ _ _ _ _ _ _ _ _ _ _ _ _ _ a => a

/-- The all-absent query leaf, for building concrete queries field by field. -/
def emptyQ : Query :=
  .mk none none none none none none none none none none none none none none none
    none none none

/-- JS truthiness of an optional string property (`undefined` and `''` are
falsy). -/
def truthyS : Option Str → Bool
  | none => false
  | some s => decide (s ≠ [])

/-- JS truthiness of an optional string-or-operator property (an operator
object is always truthy; `''` is falsy). -/
def truthyQ : Option QVal → Bool
  | none => false
  | some (QVal.str s) => decide (s ≠ [])
  | some (QVal.op _) => true

/-- JS truthiness of an optional array property (an array is truthy even when
empty). -/
def truthyL {α : Type} : Option (List α) → Bool
  | none => false
  | some _ => true

/-- `emailAddress` of a Graph `Recipient` (flattened: the nested optional
`emailAddress` object and its fields collapse into two optional fields). -/
structure Recipient where
  address : Option Str
  name : Option Str
deriving Repr

/-- The Graph `Message` fields this engine reads. -/
structure Msg where
  id : Option Str
  subject : Option Str
  bodyContent : Option Str
  bodyPreview : Option Str
  fromR : Option Recipient
  toRecipients : Option (List Recipient)
  ccRecipients : Option (List Recipient)
  bccRecipients : Option (List Recipient)
  categories : Option (List Str)
  hasAttachments : Option Bool
  isRead : Option Bool
  importance : Option Str
  receivedDateTime : Option Str
deriving Repr

/-- A message with every property absent, for building concrete messages. -/
def emptyMsg : Msg :=
  ⟨none, none, none, none, none, none, none, none, none, none, none, none, none⟩

/-! ## Category normalizer (`query-builder.ts`, `mapOutlookCategory`) -/

/-- The fixed category table (lower-case key to canonical value). -/
def OUTLOOK_CATEGORIES : List (Str × Str) :=
  [(strL "personal", strL "Personal"), (strL "work", strL "Work"),
   (strL "family", strL "Family"), (strL "travel", strL "Travel"),
   (strL "important", strL "Important"), (strL "urgent", strL "Urgent")]

def lookupAssoc : List (Str × Str) → Str → Option Str
  | [], _ => none
  | (k, v) :: rest, key => if k = key then some v else lookupAssoc rest key

/-- `mapOutlookCategory`: trim, lower-case, table lookup; `Except.error` where
the JS code throws. -/
def mapOutlookCategory (category : Str) : Except Str Str :=
  if category = [] then
    Except.error (strL "Invalid category: expected non-empty string")
  else if trimStr category = [] then
    Except.error (strL "Invalid category: empty string after trimming")
  else
    match lookupAssoc OUTLOOK_CATEGORIES (lowerStr (trimStr category)) with
    | some sys => Except.ok sys
    | none => Except.error (strL "Invalid Outlook category")

/-! ## Client predicate compiler (`client-filter.ts`) -/

/-- `normalizeTerm`: collapse whitespace, trim, lower-case; `none` when the
result is empty (JS returns `null`). -/
def normalizeTerm (input : Str) : Option Str :=
  if lowerStr (trimStr (collapseWs input)) = [] then none
  else some (lowerStr (trimStr (collapseWs input)))

/-- `normalizeForMatch`. -/
def normalizeForMatch (value : Option Str) : Str :=
  (normalizeTerm (value.getD [])).getD []

/-- `getTextSources`: normalized subject, body content and preview. -/
def getTextSources (m : Msg) : List Str :=
  [normalizeForMatch m.subject, normalizeForMatch m.bodyContent,
    normalizeForMatch m.bodyPreview]

/-- Present and non-empty array (`Array.isArray(x) && x.length > 0`). -/
def opActive : Option (List Str) → Bool
  | some l => decide (l ≠ [])
  | none => false

/-- `evaluateOperator`: a plain string is one normalized term; an operator
object applies its populated `$any`/`$all`/`$none` clauses as independent
constraints and is vacuously false with no populated clause. -/
def evaluateOperator (value : QVal) (matcher : Str → Bool)
    (normalizeFn : Str → Option Str) : Bool :=
  match value with
  | QVal.str s =>
    match normalizeFn s with
    | some n => matcher n
    | none => false
  | QVal.op o =>
    if opActive o.anyV ∧
        ((o.anyV.getD []).filterMap normalizeFn = [] ∨
          ((o.anyV.getD []).filterMap normalizeFn).any matcher = false) then false
    else if opActive o.allV ∧
        ((o.allV.getD []).filterMap normalizeFn = [] ∨
          ((o.allV.getD []).filterMap normalizeFn).all matcher = false) then false
    else if opActive o.noneV ∧
        ((o.noneV.getD []).filterMap normalizeFn).any matcher = true then false
    else opActive o.anyV || opActive o.allV || opActive o.noneV

def matchesSubject (m : Msg) (value : QVal) : Bool :=
  evaluateOperator value (fun term => strContains (normalizeForMatch m.subject) term)
    normalizeTerm

def matchesText (m : Msg) (value : QVal) : Bool :=
  evaluateOperator value
    (fun term => (getTextSources m).any (fun src => strContains src term))
    normalizeTerm

def matchesBody (m : Msg) (value : QVal) : Bool :=
  evaluateOperator value
    (fun term => strContains (normalizeForMatch m.bodyContent) term) normalizeTerm

/-- `matchesExactPhrase`: the normalized phrase must occur in one of the text
sources (`false` for a blank phrase). -/
def matchesExactPhrase (m : Msg) (phrase : Str) : Bool :=
  match normalizeTerm phrase with
  | none => false
  | some np => (getTextSources m).any (fun src => strContains src np)

structure NormalizedAddress where
  address : Str
  name : Str

def normalizeAddress (r : Option Recipient) : NormalizedAddress :=
  { address := normalizeForMatch (match r with | some rec => rec.address | none => none)
    name := normalizeForMatch (match r with | some rec => rec.name | none => none) }

/-- `matchesAddressField` (the JS `term.includes('@')` branch returns the same
expression as the fall-through, so the two collapse). -/
def matchesAddressField (ad : NormalizedAddress) (value : QVal) : Bool :=
  evaluateOperator value
    (fun term => strContains ad.address term || strContains ad.name term)
    normalizeTerm

def matchesRecipientField (rs : Option (List Recipient)) (value : QVal) : Bool :=
  evaluateOperator value
    (fun term =>
      (rs.getD []).any (fun r =>
        strContains (normalizeForMatch r.address) term ||
        strContains (normalizeForMatch r.name) term))
    normalizeTerm

/-- The per-term matcher of `matchesCategoryField`: the term goes through the
category normalizer inside a `try`; a rejected term is caught locally and
treated as never matching. -/
def categoryMatchTerm (cats : List Str) (term : Str) : Bool :=
  match mapOutlookCategory term with
  | Except.ok mapped => cats.contains mapped
  | Except.error _ => false

/-- `matchesCategoryField`. -/
def matchesCategoryField (cats : List Str) (value : QVal) : Bool :=
  evaluateOperator value (categoryMatchTerm cats) normalizeTerm

def normalizeLabelTerm (input : Str) : Option Str :=
  if trimStr input = [] then none else some (trimStr input)

def matchesLabelField (cats : List Str) (value : QVal) : Bool :=
  evaluateOperator value (fun term => cats.contains term) normalizeLabelTerm

/-- Order-preserving integer encoding of the ISO timestamps the engine
compares (`Date.parse` is only ever used for `<`/`≥` comparisons, so any
strictly monotone encoding of `YYYY-MM-DD[THH:MM:SS(.sss)?Z]` is a faithful
model of those comparisons). -/
def dateParseIso (s : Str) : Option Int :=
  match s with
  | y1 :: y2 :: y3 :: y4 :: '-' :: m1 :: m2 :: '-' :: d1 :: d2 :: rest =>
    match parseHexDigit y1, parseHexDigit y2, parseHexDigit y3, parseHexDigit y4,
        parseHexDigit m1, parseHexDigit m2, parseHexDigit d1, parseHexDigit d2 with
    | some a, some b, some c, some d, some e, some f, some g, some h =>
      if a < 10 ∧ b < 10 ∧ c < 10 ∧ d < 10 ∧ e < 10 ∧ f < 10 ∧ g < 10 ∧ h < 10 then
        let day : Nat := ((a * 1000 + b * 100 + c * 10 + d) * 100 +
          (e * 10 + f)) * 100 + (g * 10 + h)
        match rest with
        | [] => some ((day : Int) * 100000)
        | 'T' :: h1 :: h2 :: ':' :: mi1 :: mi2 :: ':' :: s1 :: s2 :: _ =>
          match parseHexDigit h1, parseHexDigit h2, parseHexDigit mi1,
              parseHexDigit mi2, parseHexDigit s1, parseHexDigit s2 with
          | some p, some q, some r, some t, some u, some v =>
            if p < 10 ∧ q < 10 ∧ r < 10 ∧ t < 10 ∧ u < 10 ∧ v < 10 then
              some ((day : Int) * 100000 +
                ((p * 10 + q) * 3600 + (r * 10 + t) * 60 + (u * 10 + v) : Nat))
            else none
          | _, _, _, _, _, _ => none
        | _ => none
      else none
    | _, _, _, _, _, _, _, _ => none
  | _ => none

/-- The `$lt` half of `matchesDate`. -/
def matchesDateLt (ts : Int) (lt : Option Str) : Bool :=
  if truthyS lt then
    match dateParseIso ((lt.getD []) ++ strL "T00:00:00Z") with
    | none => false
    | some endTs => decide (ts < endTs)
  else true

/-- `matchesDate`: inclusive lower / exclusive upper bound; unparsable or
missing timestamps never match. -/
def matchesDate (received : Option Str) (gte lt : Option Str) : Bool :=
  match received with
  | none => false
  | some r =>
    match dateParseIso r with
    | none => false
    | some ts =>
      if truthyS gte then
        match dateParseIso ((gte.getD []) ++ strL "T00:00:00Z") with
        | none => false
        | some startTs => if ts < startTs then false else matchesDateLt ts lt
      else matchesDateLt ts lt

/-- The leaf-key predicates of `buildNodePredicate` (the `predicates` array;
an empty set of recognized keys is vacuously true). -/
def leafPredicate (n : Query) (m : Msg) : Bool :=
  (match n.hasAttachment with
   | some b => m.hasAttachments = some b
   | none => true)
  && (match n.isRead with
      | some b => m.isRead = some b
      | none => true)
  && (match n.importance with
      | some s =>
        if s = [] then true
        else
          match m.importance with
          | some im => lowerStr im = lowerStr s
          | none => false
      | none => true)
  && (match n.date with
      | some d => matchesDate m.receivedDateTime d.gte d.lt
      | none => true)
  && (if truthyQ n.fromF then
        matchesAddressField (normalizeAddress m.fromR) ((n.fromF).getD (QVal.str []))
      else true)
  && (if truthyQ n.toF then
        matchesRecipientField m.toRecipients ((n.toF).getD (QVal.str []))
      else true)
  && (if truthyQ n.ccF then
        matchesRecipientField m.ccRecipients ((n.ccF).getD (QVal.str []))
      else true)
  && (if truthyQ n.bccF then
        matchesRecipientField m.bccRecipients ((n.bccF).getD (QVal.str []))
      else true)
  && (if truthyQ n.subjectF then matchesSubject m ((n.subjectF).getD (QVal.str []))
      else true)
  && (if truthyQ n.textF then matchesText m ((n.textF).getD (QVal.str [])) else true)
  && (if truthyQ n.bodyF then matchesBody m ((n.bodyF).getD (QVal.str [])) else true)
  && (if truthyS n.exactPhrase then
        matchesExactPhrase m ((n.exactPhrase).getD [])
      else true)
  && (if truthyQ n.categoriesF then
        matchesCategoryField (m.categories.getD []) ((n.categoriesF).getD (QVal.str []))
      else true)
  && (if truthyQ n.labelF then
        matchesLabelField (m.categories.getD []) ((n.labelF).getD (QVal.str []))
      else true)

/-- `buildNodePredicate`; the fuel only bounds the recursion depth and is
irrelevant on any node whose logical nesting is shallower. -/
def buildNodePredicate : Nat → Option Query → Msg → Bool
  | 0, _, _ => true
  | _ + 1, none, _ => true
  | fuel + 1, some n, m =>
    if truthyL n.andQ then
      (n.andQ.getD []).all (fun child => buildNodePredicate fuel (some child) m)
    else if truthyL n.orQ then
      (n.orQ.getD []).any (fun child => buildNodePredicate fuel (some child) m)
    else if (n.notQ).isSome then !(buildNodePredicate fuel n.notQ m)
    else leafPredicate n m

/-- `buildClientPredicate`. -/
def buildClientPredicate (fuel : Nat) (q : Query) (m : Msg) : Bool :=
  buildNodePredicate fuel (some q) m

/-! ## Remote filter compiler (`query-builder.ts`, `buildQueryFilter`) -/

/-- The nine server-translatable leaf fields. -/
inductive Fld where
  | fromF | toF | ccF | bccF | subjectF | textF | bodyF | categoriesF | labelF
deriving DecidableEq, Repr

def joinSep (sep : Str) : List Str → Str
  | [] => []
  | [x] => x
  | x :: xs => x ++ sep ++ joinSep sep xs

/-- Parenthesize. -/
def parenS (s : Str) : Str := '(' :: (s ++ [')'])

/-- Single-quote doubling (`.replace(/'/g, "''")`). -/
def sqEscape : Str → Str
  | [] => []
  | c :: t => if c = '\'' then '\'' :: '\'' :: sqEscape t else c :: sqEscape t

/-- `recip(coll, V)`. -/
def recip (coll : Str) (V : Str) : Str :=
  coll ++ strL "/any(r: r/emailAddress/address eq " ++ V ++
    strL " or r/emailAddress/name eq " ++ V ++ [')']

/-- `fv(field, raw)`: one field/value to a filter fragment; `Except.error`
where the JS code throws. -/
def fv (field : Fld) (raw : Str) : Except Str Str :=
  if field = Fld.textF ∨ field = Fld.bodyF then
    if trimStr raw = [] then Except.error (strL "Invalid value: empty string")
    else Except.ok []
  else if trimStr raw = [] then Except.error (strL "Invalid value: empty string")
  else
    match field with
    | Fld.fromF =>
      if raw.contains '@' then
        Except.ok (parenS (strL "from/emailAddress/address eq " ++
          ('\'' :: (sqEscape (lowerStr raw) ++ ['\''])) ++
          strL " or from/emailAddress/name eq " ++
          ('\'' :: (sqEscape (lowerStr raw) ++ ['\'']))))
      else Except.ok []
    | Fld.toF =>
      Except.ok (recip (strL "toRecipients") ('\'' :: (sqEscape (lowerStr raw) ++ ['\''])))
    | Fld.ccF =>
      Except.ok (recip (strL "ccRecipients") ('\'' :: (sqEscape (lowerStr raw) ++ ['\''])))
    | Fld.bccF =>
      Except.ok (recip (strL "bccRecipients") ('\'' :: (sqEscape (lowerStr raw) ++ ['\''])))
    | Fld.subjectF =>
      if raw.contains '-' ∨ raw.length < 3 then Except.ok []
      else
        Except.ok (strL "startswith(subject, " ++
          ('\'' :: (sqEscape (lowerStr raw) ++ ['\''])) ++ [')'])
    | Fld.categoriesF =>
      match mapOutlookCategory raw with
      | Except.ok sys =>
        Except.ok (strL "categories/any(c: c eq '" ++ sys ++ strL "')")
      | Except.error e => Except.error e
    | Fld.labelF =>
      Except.ok (strL "categories/any(c: c eq '" ++ sqEscape raw ++ strL "')")
    | _ => Except.ok []

/-- `chain(op, arr)`. -/
def chain (opStr : Str) (arr : List Str) : Except Str Str :=
  match arr with
  | [] => Except.error (strL "chain: empty array")
  | [x] => Except.ok x
  | xs => Except.ok (parenS (joinSep (' ' :: (opStr ++ [' '])) xs))

/-- `s && s.trim()` on a fragment. -/
def validFrag (s : Str) : Bool := decide (s ≠ []) && decide (trimStr s ≠ [])

/-- `fieldExpr(field, op)`. -/
def fieldExpr (field : Fld) (opv : QVal) : Except Str Str :=
  match opv with
  | QVal.str s => fv field s
  | QVal.op o =>
    match o.anyV with
    | some l => do
      let results ← l.mapM (fv field)
      let valid := results.filter validFrag
      if valid = [] then Except.ok [] else chain (strL "or") valid
    | none =>
      match o.allV with
      | some l => do
        let results ← l.mapM (fv field)
        let valid := results.filter validFrag
        if valid = [] then Except.ok [] else chain (strL "and") valid
      | none =>
        match o.noneV with
        | some l => do
          let results ← l.mapM (fv field)
          let valid := results.filter validFrag
          if valid = [] then Except.ok []
          else do
            let c ← chain (strL "or") valid
            Except.ok (strL "not " ++ parenS c)
        | none => Except.error (strL "Unknown field operator")

/-- `dateExpr`. -/
def dateExpr (d : DateOp) : Str :=
  match (if truthyS d.gte then
          [strL "receivedDateTime ge " ++ (d.gte.getD []) ++ strL "T00:00:00Z"]
         else []) ++
        (if truthyS d.lt then
          [strL "receivedDateTime lt " ++ (d.lt.getD []) ++ strL "T00:00:00Z"]
         else []) with
  | [] => []
  | [x] => x
  | xs => parenS (joinSep (strL " and ") xs)

/-- The number of properties present on a query node (`Object.keys(n).length`
in the model where a key is present iff its `Option` is `some`). -/
def presentCount (n : Query) : Nat :=
  (if n.andQ.isSome then 1 else 0) + (if n.orQ.isSome then 1 else 0) +
  (if n.notQ.isSome then 1 else 0) + (if n.fromF.isSome then 1 else 0) +
  (if n.toF.isSome then 1 else 0) + (if n.ccF.isSome then 1 else 0) +
  (if n.bccF.isSome then 1 else 0) + (if n.subjectF.isSome then 1 else 0) +
  (if n.textF.isSome then 1 else 0) + (if n.bodyF.isSome then 1 else 0) +
  (if n.categoriesF.isSome then 1 else 0) + (if n.labelF.isSome then 1 else 0) +
  (if n.exactPhrase.isSome then 1 else 0) +
  (if n.hasAttachment.isSome then 1 else 0) + (if n.isRead.isSome then 1 else 0) +
  (if n.importance.isSome then 1 else 0) + (if n.date.isSome then 1 else 0) +
  (if n.kqlQuery.isSome then 1 else 0)

/-- The single-key leaf dispatch of `emit` (reached when exactly one property
is present): the key must be one of the nine field keys and its value truthy. -/
def emitSingleField (n : Query) : Except Str Str :=
  if n.fromF.isSome then
    if truthyQ n.fromF then fieldExpr Fld.fromF (n.fromF.getD (QVal.str []))
    else Except.ok []
  else if n.toF.isSome then
    if truthyQ n.toF then fieldExpr Fld.toF (n.toF.getD (QVal.str []))
    else Except.ok []
  else if n.ccF.isSome then
    if truthyQ n.ccF then fieldExpr Fld.ccF (n.ccF.getD (QVal.str []))
    else Except.ok []
  else if n.bccF.isSome then
    if truthyQ n.bccF then fieldExpr Fld.bccF (n.bccF.getD (QVal.str []))
    else Except.ok []
  else if n.subjectF.isSome then
    if truthyQ n.subjectF then fieldExpr Fld.subjectF (n.subjectF.getD (QVal.str []))
    else Except.ok []
  else if n.textF.isSome then
    if truthyQ n.textF then fieldExpr Fld.textF (n.textF.getD (QVal.str []))
    else Except.ok []
  else if n.bodyF.isSome then
    if truthyQ n.bodyF then fieldExpr Fld.bodyF (n.bodyF.getD (QVal.str []))
    else Except.ok []
  else if n.categoriesF.isSome then
    if truthyQ n.categoriesF then
      fieldExpr Fld.categoriesF (n.categoriesF.getD (QVal.str []))
    else Except.ok []
  else if n.labelF.isSome then
    if truthyQ n.labelF then fieldExpr Fld.labelF (n.labelF.getD (QVal.str []))
    else Except.ok []
  else Except.ok []

/-- `emit`, fuelled on the tree depth. -/
def emit : Nat → Query → Except Str Str
  | 0, _ => Except.ok []
  | fuel + 1, n =>
    if truthyL n.andQ then do
      let parts ← (n.andQ.getD []).mapM (emit fuel)
      match parts.filter (fun p => decide (p ≠ [])) with
      | [] => Except.ok []
      | [x] => Except.ok x
      | xs => Except.ok (parenS (joinSep (strL " and ") xs))
    else if truthyL n.orQ then do
      let parts ← (n.orQ.getD []).mapM (emit fuel)
      match parts.filter (fun p => decide (p ≠ [])) with
      | [] => Except.ok []
      | [x] => Except.ok x
      | xs => Except.ok (parenS (joinSep (strL " or ") xs))
    else if n.notQ.isSome then do
      let notExpr ← emit fuel (n.notQ.getD emptyQ)
      if notExpr ≠ [] then Except.ok (strL "not (" ++ notExpr ++ [')'])
      else Except.ok []
    else if (match n.hasAttachment with | some b => b | none => false) then
      Except.ok (strL "hasAttachments eq true")
    else if n.date.isSome then Except.ok (dateExpr (n.date.getD ⟨none, none⟩))
    else if presentCount n = 1 then emitSingleField n
    else Except.ok []

/-- `buildQueryFilter`. -/
def buildQueryFilter (fuel : Nat) (q : Query) : Except Str Str := emit fuel q

/-! ## Full-text compiler (`query-builder.ts`, `hasFullTextIntent` and
`collectSearchTerms`) -/

/-- `hasFullTextIntent`, fuelled. -/
def hasFullTextIntent : Nat → Query → Bool
  | 0, _ => false
  | fuel + 1, n =>
    if truthyS n.kqlQuery then true
    else if truthyS n.exactPhrase then true
    else if truthyQ n.subjectF then true
    else if truthyQ n.textF then true
    else if truthyQ n.bodyF then true
    else if truthyL n.andQ then
      (n.andQ.getD []).any (fun c => hasFullTextIntent fuel c)
    else if truthyL n.orQ then
      (n.orQ.getD []).any (fun c => hasFullTextIntent fuel c)
    else if n.notQ.isSome then hasFullTextIntent fuel (n.notQ.getD emptyQ)
    else false

def isAsciiLetter (c : Char) : Bool :=
  ('a' ≤ c ∧ c ≤ 'z') ∨ ('A' ≤ c ∧ c ≤ 'Z')

/-- The KQL escape table of `collectSearchTerms` (no hyphen in this copy). -/
def escKQLChar (c : Char) : Str :=
  if c = '\\' ∨ c = ':' ∨ c = '(' ∨ c = ')' ∨ c = lbraceC ∨ c = rbraceC ∨
      c = '[' ∨ c = ']' ∨ c = '"' ∨ c = '*' ∨ c = '?' ∨ c = '<' ∨ c = '>' ∨
      c = '_' then
    ['\\', c]
  else [c]

def escapeKQL : Str → Str
  | [] => []
  | c :: t => escKQLChar c ++ escapeKQL t

/-- `buildClause`. -/
def buildClause (value : Str) : Str :=
  if trimStr value = [] then []
  else if (trimStr value).any (fun c => !(isAsciiLetter c || wsChar c)) ||
      (trimStr value).any wsChar then
    '"' :: (escapeKQL (trimStr value) ++ ['"'])
  else escapeKQL (trimStr value)

/-- The mutable state of `collectSearchTerms`. -/
structure SearchCollect where
  terms : List Str
  usesText : Bool
  usesBody : Bool
  usesExact : Bool
deriving Repr

def SearchCollect.merge (a b : SearchCollect) : SearchCollect :=
  ⟨a.terms ++ b.terms, a.usesText || b.usesText, a.usesBody || b.usesBody,
    a.usesExact || b.usesExact⟩

def emptyCollect : SearchCollect := ⟨[], false, false, false⟩

/-- `pushAnyTerms`. -/
def pushAnyTerms (values : List Str) : List Str :=
  match (values.map buildClause).filter (fun c => decide (c ≠ [])) with
  | [] => []
  | [c] => [c]
  | cs => [parenS (joinSep (strL " OR ") cs)]

/-- `pushAllTerms`. -/
def pushAllTerms (values : List Str) : List Str :=
  match (values.map buildClause).filter (fun c => decide (c ≠ [])) with
  | [] => []
  | [c] => [c]
  | cs => [parenS (joinSep (strL " AND ") cs)]

/-- `pushOperatorTerms` (applied to `subject`, `text` and `body` values). -/
def pushOperatorTerms (value : Option QVal) : List Str :=
  if !truthyQ value then []
  else
    match value.getD (QVal.str []) with
    | QVal.str s => if buildClause s = [] then [] else [buildClause s]
    | QVal.op o =>
      (if opActive o.anyV then pushAnyTerms (o.anyV.getD []) else []) ++
      (if opActive o.allV then pushAllTerms (o.allV.getD []) else []) ++
      (if opActive o.noneV then
        match ((o.noneV.getD []).map buildClause).filter (fun c => decide (c ≠ [])) with
        | [] => []
        | [c] => [strL "NOT " ++ c]
        | cs => [strL "NOT " ++ parenS (joinSep (strL " OR ") cs)]
       else [])

/-- `pushExactPhrase`. -/
def pushExactPhrase (value : Str) : List Str :=
  if trimStr value = [] then []
  else pushAnyTerms ['"' :: (value ++ ['"'])]

/-- `collectSearchTerms`, fuelled. -/
def collectSearchTerms : Nat → Query → SearchCollect
  | 0, _ => emptyCollect
  | fuel + 1, n =>
    if truthyL n.andQ then
      (n.andQ.getD []).foldl (fun st c => st.merge (collectSearchTerms fuel c))
        emptyCollect
    else if truthyL n.orQ then
      (n.orQ.getD []).foldl (fun st c => st.merge (collectSearchTerms fuel c))
        emptyCollect
    else if n.notQ.isSome then collectSearchTerms fuel (n.notQ.getD emptyQ)
    else
      { terms :=
          (if truthyS n.exactPhrase then pushExactPhrase (n.exactPhrase.getD [])
           else []) ++
          pushOperatorTerms n.subjectF ++
          (if truthyQ n.textF then pushOperatorTerms n.textF else []) ++
          (if truthyQ n.bodyF then pushOperatorTerms n.bodyF else [])
        usesText := truthyQ n.textF
        usesBody := truthyQ n.bodyF
        usesExact := truthyS n.exactPhrase }

/-- `ODataFilterResult` / the compiled plan. -/
structure GraphPlan where
  search : Option Str
  filter : Option Str
  requireBodyClientFilter : Bool
  hasFullText : Bool
deriving Repr

/-- `toGraphFilter`. -/
def toGraphFilter (fuel : Nat) (q : Query) : Except Str GraphPlan :=
  if truthyS q.kqlQuery then
    Except.ok ⟨q.kqlQuery, none, false, true⟩
  else if hasFullTextIntent fuel q then
    Except.ok
      ⟨(if (collectSearchTerms fuel q).terms = [] then none
        else some (joinSep (strL " OR ") (collectSearchTerms fuel q).terms)),
        none,
        (collectSearchTerms fuel q).usesBody || (collectSearchTerms fuel q).usesText,
        true⟩
  else do
    let fstr ← buildQueryFilter fuel q
    Except.ok
      ⟨none, (if trimStr fstr = [] then none else some (trimStr fstr)), false, false⟩

/-! ## Leaf builders for concrete queries -/

/-- A single-field leaf carrying `v` on the given field key. -/
def mkLeaf : Fld → QVal → Query
  | Fld.fromF, v => .mk none none none (some v) none none none none none none none none none none none none none none
  | Fld.toF, v => .mk none none none none (some v) none none none none none none none none none none none none none
  | Fld.ccF, v => .mk none none none none none (some v) none none none none none none none none none none none none
  | Fld.bccF, v => .mk none none none none none none (some v) none none none none none none none none none none none
  | Fld.subjectF, v => .mk none none none none none none none (some v) none none none none none none none none none none
  | Fld.textF, v => .mk none none none none none none none none (some v) none none none none none none none none none
  | Fld.bodyF, v => .mk none none none none none none none none none (some v) none none none none none none none none
  | Fld.categoriesF, v => .mk none none none none none none none none none none (some v) none none none none none none none
  | Fld.labelF, v => .mk none none none none none none none none none none none (some v) none none none none none none

/-- A leaf carrying only `exactPhrase`. -/
def leafExact (p : Str) : Query :=
  .mk none none none none none none none none none none none none (some p) none none none none none

/-- A leaf carrying only `hasAttachment`. -/
def leafHasAttachment (b : Bool) : Query :=
  .mk none none none none none none none none none none none none none (some b) none none none none

/-- An `$and` node. -/
def nodeAnd (children : List Query) : Query :=
  .mk (some children) none none none none none none none none none none none none none none none none none

/-- The six canonical categories. -/
def canonicalCategories : List Str :=
  [strL "Personal", strL "Work", strL "Family", strL "Travel",
    strL "Important", strL "Urgent"]

/-! ## The paginated search executor (`search-execution.ts`) -/

/-- A Graph `/me/messages` page response: the `value` array and the
`$skiptoken` extracted from `@odata.nextLink` (already `|| undefined`
normalised by the caller `fetchGraphPage`). -/
structure Page where
  messages : List Msg
  nextSkipToken : Option Str

/-- The observable shape of one Graph request as `fetchGraphPage` builds it:
the `.search(...)`, `.filter(...)` and `.skipToken(...)` decorations actually
applied and the `.top(...)` value.  (`includeBody` only changes the
`.select(...)` field list and is not modelled.) -/
structure FetchReq where
  searchArg : Option Str
  filterArg : Option Str
  skipTokenArg : Option Str
  top : Nat
deriving Repr

/-- The remote Graph service, abstracted as a deterministic response per
request. -/
def Remote : Type := FetchReq → Page

/-- `if (skipToken && skipToken !== FIRST_PAGE_SKIP_TOKEN) request.skipToken(skipToken)`:
the cursor decoration is dropped for a missing or empty cursor and for the
first-page sentinel. -/
def effTok : Option Str → Option Str
  | none => none
  | some s => if s = [] then none else if s = firstPageSkipToken then none else some s

/-- The request `fetchGraphPage` issues for the given search/filter/cursor and
page size (`const top = Math.min(pageSize, 1000)`). -/
def mkReq (search filter cursor : Option Str) (pageSize : Nat) : FetchReq :=
  ⟨search, filter, effTok cursor, min pageSize 1000⟩

/-- `nextLinkUrl.searchParams.get('$skiptoken') || undefined`: an absent or
empty extracted cursor becomes `undefined`. -/
def normTok : Option Str → Option Str
  | none => none
  | some t => if t = [] then none else some t

/-- `fetchGraphPage`: issue the built request and normalise the next cursor. -/
def fetchGraphPage (remote : Remote) (search filter cursor : Option Str)
    (pageSize : Nat) : Page :=
  ⟨(remote (mkReq search filter cursor pageSize)).messages,
    normTok (remote (mkReq search filter cursor pageSize)).nextSkipToken⟩

/-- The parameter record of `collectClientFilteredPages` (logger and
`includeBody` omitted: they affect logging and the `.select` list only). -/
structure CollectParams where
  search : Option Str
  filter : Option Str
  startSkipToken : Option Str
  startOffset : Nat
  predicate : Option (Msg → Bool)
  pageSize : Nat
  maxPages : Option Nat
  maxItemsScanned : Option Nat
  mode : Str

/-- The result record of `collectClientFilteredPages`. -/
structure CollectResult where
  collected : List Msg
  midPageToken : Option Str
  nextSkipToken : Option Str
  capHit : Bool
deriving Repr

/-- The page `collectClientFilteredPages` fetches for a given current
cursor. -/
def pageOf (remote : Remote) (p : CollectParams) (current : Option Str) : Page :=
  fetchGraphPage remote p.search p.filter current p.pageSize

/-- The request that fetch issues. -/
def reqOf (p : CollectParams) (current : Option Str) : FetchReq :=
  mkReq p.search p.filter current p.pageSize

/-- `maxPages !== null && pagesFetched >= maxPages`. -/
def capPages (p : CollectParams) (pagesFetched : Nat) : Bool :=
  match p.maxPages with
  | some mp => decide (mp ≤ pagesFetched)
  | none => false

/-- `maxItemsScanned !== null && scannedItems > maxItemsScanned` (tested after
the `scannedItems += 1` increment, hence on `scanned + 1`). -/
def capScan (maxItems : Option Nat) (scanned : Nat) : Bool :=
  match maxItems with
  | some mx => decide (mx < scanned + 1)
  | none => false

/-- `predicate && !predicate(message)`. -/
def rejects (pred : Option (Msg → Bool)) (m : Msg) : Bool :=
  match pred with
  | some p => !(p m)
  | none => false

/-- Outcome of the `for (idx …)` scan over one (sliced) page: the loop either
trips the scan cap (`break mainLoop` with `capHit`), fills the output buffer
(`break mainLoop` with a mid-page `nextOffset`), or falls through the page.
Each constructor carries the updated `collected`, the updated `scannedItems`
counter, and the raw items the loop inspected, in order. -/
inductive ScanRes where
  | cap (collected : List Msg) (scanned : Nat) (log : List Msg)
  | filled (collected : List Msg) (scanned : Nat) (log : List Msg) (nextOffset : Nat)
  | through (collected : List Msg) (scanned : Nat) (log : List Msg)

/-- Record one more inspected item in front of a scan outcome's log. -/
def ScanRes.logCons (m : Msg) : ScanRes → ScanRes
  | .cap c s l => .cap c s (m :: l)
  | .filled c s l o => .filled c s (m :: l) o
  | .through c s l => .through c s (m :: l)

/-- The inner `for` loop of `collectClientFilteredPages` over the sliced page
items.  `pos` is the index of the head item within the full unsliced page
(initially `startIndex`), so a fill at the head reports
`nextOffset = startIndex + idx + 1 = pos + 1`. -/
def scanItems (pred : Option (Msg → Bool)) (pageSize : Nat)
    (maxItems : Option Nat) : List Msg → List Msg → Nat → Nat → ScanRes
  | [], collected, scanned, _ => .through collected scanned []
  | msg :: rest, collected, scanned, pos =>
    if capScan maxItems scanned then .cap collected (scanned + 1) [msg]
    else if rejects pred msg then
      ScanRes.logCons msg
        (scanItems pred pageSize maxItems rest collected (scanned + 1) (pos + 1))
    else if collected.length + 1 = pageSize then
      .filled (collected ++ [msg]) (scanned + 1) [msg] (pos + 1)
    else
      ScanRes.logCons msg
        (scanItems pred pageSize maxItems rest (collected ++ [msg]) (scanned + 1)
          (pos + 1))

/-- The `mainLoop` of `collectClientFilteredPages`, with the mutable state as
arguments (`current` = `currentSkipToken`, `offset`, `collected`,
`lastNext` = `lastNextSkipToken`, `pagesFetched`, `scanned` = `scannedItems`).
Fuel bounds the number of iterations; `none` models non-termination, never
reached for fuel above the page count actually consumed.  Besides the
`CollectResult` the model returns the list of issued requests and the list of
raw items inspected by the scan, both in order, as pure instrumentation. -/
def collectLoop (remote : Remote) (p : CollectParams) :
    Nat → Option Str → Nat → List Msg → Option Str → Nat → Nat →
    Option (CollectResult × List FetchReq × List Msg)
  | 0, _, _, _, _, _, _ => none
  | fuel + 1, current, offset, collected, lastNext, pagesFetched, scanned =>
    if p.pageSize ≤ collected.length then
      some (⟨collected, none, lastNext, false⟩, [], [])
    else if capPages p pagesFetched then
      some (⟨collected, none, lastNext, true⟩, [], [])
    else if (pageOf remote p current).messages.length = 0 then
      some (⟨collected, none, (pageOf remote p current).nextSkipToken, false⟩,
        [reqOf p current], [])
    else
      match scanItems p.predicate p.pageSize p.maxItemsScanned
          ((pageOf remote p current).messages.drop offset) collected scanned
          offset with
      | ScanRes.cap c _ log =>
        some (⟨c, none, (pageOf remote p current).nextSkipToken, true⟩,
          [reqOf p current], log)
      | ScanRes.filled c _ log nextOffset =>
        some (⟨c,
            some (encodeNextPageToken current (nextOffset : Int) (some p.mode)),
            (pageOf remote p current).nextSkipToken, false⟩,
          [reqOf p current], log)
      | ScanRes.through c s log =>
        if truthyS (pageOf remote p current).nextSkipToken then
          match collectLoop remote p fuel (pageOf remote p current).nextSkipToken 0
              c (pageOf remote p current).nextSkipToken (pagesFetched + 1) s with
          | none => none
          | some (res, tr, lg) => some (res, reqOf p current :: tr, log ++ lg)
        else
          some (⟨c, none, (pageOf remote p current).nextSkipToken, false⟩,
            [reqOf p current], log)

/-- `collectClientFilteredPages`. -/
def collectClientFilteredPages (remote : Remote) (p : CollectParams)
    (fuel : Nat) : Option (CollectResult × List FetchReq × List Msg) :=
  collectLoop remote p fuel p.startSkipToken p.startOffset [] none 0 0

/-- The `OutlookSearchOptions` record (logger, `limit` and `includeBody`
omitted as above). -/
structure SearchOptions where
  query : Option Query
  maxPages : Option Nat
  maxItemsScanned : Option Nat
  pageSize : Nat
  pageToken : Option Str

/-- The `OutlookSearchResult` record. -/
structure OutlookSearchResult where
  messages : List Msg
  nextPageToken : Option Str
deriving Repr

/-- The result-selection `if` chain that `searchMessages` runs on a collect
result (it appears verbatim twice, for the search pass with `mode: 'search'`
and for the fallback pass with `mode: 'filter'`); `none` when all four guards
fail and control falls through. -/
def finishCollect (r : CollectResult) (mode : Str) : Option OutlookSearchResult :=
  if r.capHit then some ⟨r.collected, none⟩
  else if truthyS r.midPageToken then some ⟨r.collected, r.midPageToken⟩
  else if truthyS r.nextSkipToken then
    some ⟨r.collected, some (encodeNextPageToken r.nextSkipToken 0 (some mode))⟩
  else if 0 < r.collected.length then some ⟨r.collected, none⟩
  else none

/-- The `CollectParams` of the full-text search pass of `searchMessages`. -/
def searchPassParams (plan : GraphPlan) (st : DecodeTokenResult)
    (pred : Msg → Bool) (opts : SearchOptions) : CollectParams :=
  ⟨plan.search, none, st.skipToken, st.offset, some pred, opts.pageSize,
    opts.maxPages, opts.maxItemsScanned, strL "search"⟩

/-- The `CollectParams` of the fallback filter pass of `searchMessages`. -/
def fallbackPassParams (fallbackFilter : Str) (pred : Msg → Bool)
    (opts : SearchOptions) : CollectParams :=
  ⟨none, some fallbackFilter, none, 0, some pred, opts.pageSize,
    opts.maxPages, opts.maxItemsScanned, strL "filter"⟩

/-- `searchMessages`.  `fuel` bounds both scan loops' iteration counts and
`qfuel` the query-tree recursion; `Except.error` models a thrown compile
error, `Except.ok none` exhausted fuel.  The returned trace is the list of all
Graph requests the call issued, in order. -/
def searchMessagesModel (remote : Remote) (fuel qfuel : Nat)
    (opts : SearchOptions) :
    Except Str (Option (OutlookSearchResult × List FetchReq)) :=
  match opts.query with
  | none =>
    Except.ok (some
      (⟨(fetchGraphPage remote none none
            (decodeNextPageToken opts.pageToken).skipToken opts.pageSize).messages,
        (fetchGraphPage remote none none
            (decodeNextPageToken opts.pageToken).skipToken
            opts.pageSize).nextSkipToken⟩,
       [mkReq none none (decodeNextPageToken opts.pageToken).skipToken
          opts.pageSize]))
  | some q =>
    match toGraphFilter qfuel q with
    | Except.error e => Except.error e
    | Except.ok plan =>
      if plan.hasFullText then
        match collectClientFilteredPages remote
            (searchPassParams plan (decodeNextPageToken opts.pageToken)
              (buildClientPredicate qfuel q) opts) fuel with
        | none => Except.ok none
        | some (S, trS, _) =>
          match finishCollect S (strL "search") with
          | some res => Except.ok (some (res, trS))
          | none =>
            match buildQueryFilter qfuel q with
            | Except.error e => Except.error e
            | Except.ok fraw =>
              if trimStr fraw = [] then
                Except.ok (some (⟨S.collected, none⟩, trS))
              else
                match collectClientFilteredPages remote
                    (fallbackPassParams (trimStr fraw)
                      (buildClientPredicate qfuel q) opts) fuel with
                | none => Except.ok none
                | some (F, trF, _) =>
                  match finishCollect F (strL "filter") with
                  | some res => Except.ok (some (res, trS ++ trF))
                  | none => Except.ok (some (⟨S.collected, none⟩, trS ++ trF))
      else
        Except.ok (some
          (⟨(fetchGraphPage remote plan.search plan.filter
                (decodeNextPageToken opts.pageToken).skipToken
                opts.pageSize).messages,
            (fetchGraphPage remote plan.search plan.filter
                (decodeNextPageToken opts.pageToken).skipToken
                opts.pageSize).nextSkipToken⟩,
           [mkReq plan.search plan.filter
              (decodeNextPageToken opts.pageToken).skipToken opts.pageSize]))

/-- Specification-side reading of C1's resumption sentence: the stream of raw
items a call starting at `cursor` with first-page slice `offset` is expected
to scan — the first fetched page's items from `offset` on, then every
subsequent page in full (offset reset to 0), following cursors until a page
is empty or offers no next cursor. -/
def streamFrom (remote : Remote) (p : CollectParams) :
    Nat → Option Str → Nat → List Msg
  | 0, _, _ => []
  | fuel + 1, cur, off =>
    if (pageOf remote p cur).messages.length = 0 then []
    else
      (pageOf remote p cur).messages.drop off ++
        (if truthyS (pageOf remote p cur).nextSkipToken then
          streamFrom remote p fuel (pageOf remote p cur).nextSkipToken 0
        else [])

/-- Specification-side reading of C2's precedence sentence: capped means no
token; else a computed mid-page token is returned as-is; else a provided
remote next-cursor is re-encoded with offset 0; else no token. -/
def claimTokenSelect (capHit : Bool) (mid : Option Str) (lastCursor : Option Str)
    (mode : Str) : Option Str :=
  if capHit then none
  else
    match mid with
    | some t => some t
    | none =>
      match lastCursor with
      | some c => some (encodeNextPageToken (some c) 0 (some mode))
      | none => none

/-! ### Concrete scenario data for the executor claims -/

/-- A remote whose every page is empty but carries the next cursor `abc`. -/
def cxRemoteEmptyCursor : Remote := fun _ => ⟨[], some (strL "abc")⟩

/-- `{hasAttachment: true}` — a query without full-text intent. -/
def cxQueryHasAtt : Query := leafHasAttachment true

/-- `{subject: "hello"}` — full-text intent with a non-empty structural
fallback filter. -/
def cxQuerySubject : Query := mkLeaf Fld.subjectF (QVal.str (strL "hello"))

def cxMsgHello : Msg := { emptyMsg with subject := some (strL "hello world") }

/-- A remote that answers filter requests with one matching message and
search requests with an empty cursorless page. -/
def cxRemoteFallback : Remote := fun req =>
  match req.filterArg with
  | some _ => ⟨[cxMsgHello], none⟩
  | none => ⟨[], none⟩

/-- `{text: "zzz"}` — full-text intent whose predicate the scenario messages
all fail. -/
def cxQueryText : Query := mkLeaf Fld.textF (QVal.str (strL "zzz"))

def cxMsgA : Msg := { emptyMsg with subject := some (strL "aaa") }

def cxMsgB : Msg := { emptyMsg with subject := some (strL "bbb") }

def cxMsgC : Msg := { emptyMsg with subject := some (strL "ccc") }

def cxMsgD : Msg := { emptyMsg with subject := some (strL "ddd") }

/-- A remote with a single cursorless page of exactly three messages. -/
def cxRemoteThree : Remote := fun _ => ⟨[cxMsgA, cxMsgB, cxMsgC], none⟩

/-- A remote with a single cursorless page of four messages. -/
def cxRemoteFour : Remote := fun _ => ⟨[cxMsgA, cxMsgB, cxMsgC, cxMsgD], none⟩

/-- A remote whose every page holds a subjectless message and two with
subjects, plus a next cursor. -/
def cxRemoteMid : Remote := fun _ => ⟨[emptyMsg, cxMsgB, cxMsgC], some (strL "k2")⟩

/-- Collect parameters: page size 2, predicate `subject present`. -/
def cxParamsMid : CollectParams :=
  ⟨some (strL "s"), none, none, 0, some (fun m => m.subject.isSome), 2, none,
    none, strL "search"⟩

/-- `{subject: {$any: ["bbb", "ccc"]}}`. -/
def cxQuerySubjOp : Query :=
  mkLeaf Fld.subjectF (QVal.op ⟨some [strL "bbb", strL "ccc"], none, none⟩)

/-- The concrete mid-page scenario's collect result: page size 2 filled at the
third raw item of the first page. -/
def cxMidResult : CollectResult :=
  ⟨[cxMsgB, cxMsgC],
    some (encodeNextPageToken none ((3 : Nat) : Int) (some (strL "search"))),
    some (strL "k2"), false⟩

def cxMidTrace : List FetchReq := [⟨some (strL "s"), none, none, 2⟩]

def cxMidLog : List Msg := [emptyMsg, cxMsgB, cxMsgC]

/-- The compiled plan of `cxQuerySubjOp`. -/
def cxC2Plan : GraphPlan := ⟨some (strL "(bbb OR ccc)"), none, false, true⟩

def cxC2Opts : SearchOptions := ⟨some cxQuerySubjOp, none, none, 2, none⟩

/-- Search-pass collect result of the C2 scenario: buffer of 2 filled at the
third raw item, with a remote next-cursor also on offer. -/
def cxC2Result : CollectResult :=
  ⟨[cxMsgB, cxMsgC],
    some (encodeNextPageToken none ((3 : Nat) : Int) (some (strL "search"))),
    some (strL "k2"), false⟩

def cxC2Trace : List FetchReq := [⟨some (strL "(bbb OR ccc)"), none, none, 2⟩]

def cxC2Log : List Msg := [emptyMsg, cxMsgB, cxMsgC]

def cxC3Plan : GraphPlan := ⟨none, some (strL "hasAttachments eq true"), false, false⟩

def cxC3Opts : SearchOptions := ⟨some cxQueryHasAtt, none, none, 50, none⟩

def cxC4Opts : SearchOptions := ⟨some cxQuerySubject, none, none, 50, none⟩

def cxC4Plan : GraphPlan := ⟨some (strL "hello"), none, false, true⟩

/-- Search-pass result of the C4 witness scenario: clean exhaustion, nothing
accepted, no cursor. -/
def cxC4SearchResult : CollectResult := ⟨[], none, none, false⟩

def cxC4SearchTrace : List FetchReq := [⟨some (strL "hello"), none, none, 50⟩]

/-- Fallback-pass result of the C4 witness scenario: one accepted item. -/
def cxC4FallbackResult : CollectResult := ⟨[cxMsgHello], none, none, false⟩

def cxC4FallbackTrace : List FetchReq :=
  [⟨none, some (strL "startswith(subject, 'hello')"), none, 50⟩]

def cxC7Plan : GraphPlan := ⟨some (strL "zzz"), none, true, true⟩

def cxC7Opts : SearchOptions := ⟨some cxQueryText, none, some 3, 50, none⟩

/-! ## Theorems -/

theorem utf8Step_snd_le (b1 : Nat) (t : List Nat) :
    (utf8Step b1 t).2.length ≤ t.length := by
  unfold utf8Step
  repeat' split
  all_goals simp_all
  all_goals omega

theorem utf8DecodeF_nil (f : Nat) : utf8DecodeF f [] = [] := by
  cases f <;> rfl

theorem utf8DecodeF_cons (f : Nat) (b1 : Nat) (t : List Nat)
    (hf : t.length < f) :
    utf8DecodeF f (b1 :: t)
      = (utf8Step b1 t).1 :: utf8DecodeF (f - 1) (utf8Step b1 t).2 := by
  cases f with
  | zero => omega
  | succ g => rfl

theorem utf8EncodeChar_length_pos (c : Char) : 1 ≤ (utf8EncodeChar c).length := by
  unfold utf8EncodeChar
  repeat' split
  all_goals norm_num

theorem utf8DecodeF_encodeChar (c : Char) (bs : List Nat) (f : Nat)
    (hf : (utf8EncodeChar c ++ bs).length ≤ f) :
    utf8DecodeF f (utf8EncodeChar c ++ bs) = c :: utf8DecodeF (f - 1) bs := by
  have hval : c.toNat < 0xD800 ∨ (0xDFFF < c.toNat ∧ c.toNat < 0x110000) := c.valid
  have hofc : Char.ofNat c.toNat = c := Char.ofNat_toNat c
  rw [List.length_append] at hf
  unfold utf8EncodeChar at hf ⊢
  by_cases h1 : c.toNat < 0x80
  · rw [if_pos h1] at hf ⊢
    simp only [List.cons_append, List.nil_append]
    rw [utf8DecodeF_cons _ _ _ (by simp at hf ⊢; omega)]
    have hstep : utf8Step c.toNat bs = (Char.ofNat c.toNat, bs) := by
      simp only [utf8Step]
      rw [if_pos h1]
    rw [hstep, hofc]
  · by_cases h2 : c.toNat < 0x800
    · rw [if_neg h1, if_pos h2] at hf ⊢
      simp only [List.cons_append, List.nil_append]
      rw [utf8DecodeF_cons _ _ _ (by simp at hf ⊢; omega)]
      have hstep : utf8Step (0xC0 + c.toNat / 64) ((0x80 + c.toNat % 64) :: bs)
          = (Char.ofNat c.toNat, bs) := by
        simp only [utf8Step]
        rw [if_neg (by omega), if_neg (by omega), if_pos (by omega),
          if_pos (by omega)]
        have h64 : (0xC0 + c.toNat / 64 - 0xC0) * 64 + (0x80 + c.toNat % 64 - 0x80)
            = c.toNat := by omega
        rw [h64]
      rw [hstep, hofc]
    · by_cases h3 : c.toNat < 0x10000
      · rw [if_neg h1, if_neg h2, if_pos h3] at hf ⊢
        simp only [List.cons_append, List.nil_append]
        rw [utf8DecodeF_cons _ _ _ (by simp at hf ⊢; omega)]
        have hstep : utf8Step (0xE0 + c.toNat / 4096)
            ((0x80 + c.toNat / 64 % 64) :: (0x80 + c.toNat % 64) :: bs)
            = (Char.ofNat c.toNat, bs) := by
          simp only [utf8Step]
          rw [if_neg (by omega), if_neg (by omega), if_neg (by omega),
            if_pos (by omega), if_pos (by omega)]
          have h64 : (0xE0 + c.toNat / 4096 - 0xE0) * 4096 +
              (0x80 + c.toNat / 64 % 64 - 0x80) * 64 + (0x80 + c.toNat % 64 - 0x80)
              = c.toNat := by omega
          rw [h64]
        rw [hstep, hofc]
      · rw [if_neg h1, if_neg h2, if_neg h3] at hf ⊢
        simp only [List.cons_append, List.nil_append]
        rw [utf8DecodeF_cons _ _ _ (by simp at hf ⊢; omega)]
        have hstep : utf8Step (0xF0 + c.toNat / 262144)
            ((0x80 + c.toNat / 4096 % 64) :: (0x80 + c.toNat / 64 % 64) ::
              (0x80 + c.toNat % 64) :: bs)
            = (Char.ofNat c.toNat, bs) := by
          simp only [utf8Step]
          rw [if_neg (by omega), if_neg (by omega), if_neg (by omega),
            if_neg (by omega), if_pos (by omega), if_pos (by omega)]
          have h64 : (0xF0 + c.toNat / 262144 - 0xF0) * 262144 +
              (0x80 + c.toNat / 4096 % 64 - 0x80) * 4096 +
              (0x80 + c.toNat / 64 % 64 - 0x80) * 64 + (0x80 + c.toNat % 64 - 0x80)
              = c.toNat := by omega
          rw [h64]
        rw [hstep, hofc]

theorem utf8DecodeF_encode (s : Str) :
    ∀ f, (utf8Encode s).length ≤ f → utf8DecodeF f (utf8Encode s) = s := by
  induction s with
  | nil =>
    intro f _
    exact utf8DecodeF_nil f
  | cons c t ih =>
    intro f hf
    rw [utf8Encode] at hf ⊢
    rw [utf8DecodeF_encodeChar c _ f hf]
    congr 1
    apply ih
    have h1 := utf8EncodeChar_length_pos c
    rw [List.length_append] at hf
    omega

/-- UTF-8 round-trip on well-formed strings. -/
theorem utf8Decode_encode (s : Str) : utf8Decode (utf8Encode s) = s := by
  exact utf8DecodeF_encode s _ le_rfl

theorem charSextet_roundtrip :
    ∀ n, n < 64 → charSextet (unreplUrl (replUrl (sextetChar n))) = some n := by
  decide

theorem replUrl_sextetChar_ne_eq :
    ∀ n, n < 64 → replUrl (sextetChar n) ≠ '=' := by
  decide

theorem sextetsOf_lt (bs : List Nat) (hbs : ∀ b ∈ bs, b < 256) :
    ∀ x ∈ sextetsOf bs, x < 64 := by
  induction bs using sextetsOf.induct with
  | case1 => simp [sextetsOf]
  | case2 a =>
    have := hbs a (by simp)
    simp [sextetsOf]
    omega
  | case3 a b =>
    have := hbs a (by simp)
    have := hbs b (by simp)
    simp [sextetsOf]
    omega
  | case4 a b c r ih =>
    have ha := hbs a (by simp)
    have hb := hbs b (by simp)
    have hc := hbs c (by simp)
    have hr : ∀ x ∈ r, x < 256 := fun x hx => hbs x (by simp [hx])
    intro x hx
    simp only [sextetsOf, List.mem_cons] at hx
    rcases hx with rfl | rfl | rfl | rfl | hx
    · omega
    · omega
    · omega
    · omega
    · exact ih hr x hx

theorem groupDecode_sextetsOf (bs : List Nat) (hbs : ∀ b ∈ bs, b < 256) :
    groupDecode (sextetsOf bs) = bs := by
  induction bs using sextetsOf.induct with
  | case1 => simp [sextetsOf, groupDecode]
  | case2 a =>
    have := hbs a (by simp)
    simp only [sextetsOf, groupDecode]
    congr 1
    omega
  | case3 a b =>
    have := hbs a (by simp)
    have := hbs b (by simp)
    simp only [sextetsOf, groupDecode]
    congr 1
    · omega
    · congr 1
      omega
  | case4 a b c r ih =>
    have ha := hbs a (by simp)
    have hb := hbs b (by simp)
    have hc := hbs c (by simp)
    have hr : ∀ x ∈ r, x < 256 := fun x hx => hbs x (by simp [hx])
    simp only [sextetsOf, groupDecode, ih hr]
    congr 1
    · omega
    · congr 1
      · omega
      · congr 1
        omega

theorem utf8EncodeChar_lt (c : Char) : ∀ b ∈ utf8EncodeChar c, b < 256 := by
  have hval : c.toNat < 0xD800 ∨ (0xDFFF < c.toNat ∧ c.toNat < 0x110000) := c.valid
  unfold utf8EncodeChar
  by_cases h1 : c.toNat < 0x80
  · simp [h1]
    omega
  · by_cases h2 : c.toNat < 0x800
    · rw [if_neg h1, if_pos h2]
      simp
      omega
    · by_cases h3 : c.toNat < 0x10000
      · rw [if_neg h1, if_neg h2, if_pos h3]
        simp
        omega
      · rw [if_neg h1, if_neg h2, if_neg h3]
        simp
        omega

theorem utf8Encode_lt (s : Str) : ∀ b ∈ utf8Encode s, b < 256 := by
  induction s with
  | nil => simp [utf8Encode]
  | cons c t ih =>
    intro b hb
    rw [utf8Encode] at hb
    rcases List.mem_append.1 hb with h | h
    · exact utf8EncodeChar_lt c b h
    · exact ih b h

theorem dropWhile_replicate_append (p : Char → Bool) (k : Nat) (c : Char)
    (hc : p c = true) (l : Str) :
    (List.replicate k c ++ l).dropWhile p = l.dropWhile p := by
  induction k with
  | zero => simp
  | succ n ih => simp [List.replicate_succ, List.dropWhile, hc, ih]

theorem stripEqEnd_append_replicate (A : Str) (k : Nat)
    (hA : ∀ c ∈ A, c ≠ '=') :
    stripEqEnd (A ++ List.replicate k '=') = A := by
  unfold stripEqEnd
  rw [List.reverse_append, List.reverse_replicate,
    dropWhile_replicate_append _ k '=' (by simp) A.reverse]
  have : A.reverse.dropWhile (fun c => c = '=') = A.reverse := by
    cases hrev : A.reverse with
    | nil => simp
    | cons x xs =>
      have hx : x ∈ A := by
        have : x ∈ A.reverse := by rw [hrev]; simp
        simpa using this
      rw [List.dropWhile_cons]
      simp [hA x hx]
  rw [this, List.reverse_reverse]

theorem filterMap_charSextet_replicate_eq (k : Nat) :
    (List.replicate k '=').filterMap charSextet = [] := by
  induction k with
  | zero => simp
  | succ n ih => simp [List.replicate_succ, List.filterMap_cons, charSextet, ih]

theorem filterMap_charSextet_map (l : List Nat) (hl : ∀ n ∈ l, n < 64) :
    List.filterMap charSextet (List.map (unreplUrl ∘ replUrl ∘ sextetChar) l) = l := by
  induction l with
  | nil => simp
  | cons n ns ih =>
    simp only [List.map_cons, List.filterMap_cons, Function.comp_apply]
    rw [charSextet_roundtrip n (hl n (by simp))]
    rw [ih (fun m hm => hl m (by simp [hm]))]

/-- The composite round-trip of the two base64url helpers. -/
theorem base64UrlDecode_encode (s : Str) : base64UrlDecode (base64UrlEncode s) = s := by
  have hbytes := utf8Encode_lt s
  have hsx := sextetsOf_lt (utf8Encode s) hbytes
  unfold base64UrlEncode base64UrlDecode b64core
  rw [List.map_append, List.map_replicate]
  have hrepl : replUrl '=' = '=' := by decide
  rw [hrepl]
  rw [stripEqEnd_append_replicate _ _ (by
    intro c hc
    rcases List.mem_map.1 hc with ⟨x, hx, rfl⟩
    rcases List.mem_map.1 hx with ⟨n, hn, rfl⟩
    exact replUrl_sextetChar_ne_eq n (hsx n hn))]
  simp only [nodeB64Bytes, List.filterMap_append, List.map_append, List.map_map,
    List.map_replicate]
  rw [filterMap_charSextet_replicate_eq, List.append_nil]
  rw [filterMap_charSextet_map _ hsx]
  rw [groupDecode_sextetsOf _ hbytes, utf8Decode_encode]

/-! ### Round-trip of the serialized payload through the `JSON.parse` model -/

theorem skipWs_cons (c : Char) (t : Str) (hc : jsonWsChar c = false) :
    skipWs (c :: t) = c :: t := by
  simp [skipWs, List.dropWhile_cons, hc]

theorem parseHexDigit_hexDigitChar : ∀ d, d < 16 → parseHexDigit (hexDigitChar d) = some d := by
  decide

theorem pStringBody_hexEscape (a3 a4 : Nat) (h3 : a3 < 16) (h4 : a4 < 16)
    (hlt : a3 * 16 + a4 < 0x20) (X : Str) :
    pStringBody ('\\' :: 'u' :: '0' :: '0' :: hexDigitChar a3 :: hexDigitChar a4 :: X)
      = (pStringBody X).map (fun p => (Char.ofNat (a3 * 16 + a4) :: p.1, p.2)) := by
  rw [pStringBody.eq_def]
  simp only []
  simp only [if_true, if_false]
  rw [parseHexDigit_hexDigitChar a3 h3, parseHexDigit_hexDigitChar a4 h4]
  simp only [show parseHexDigit '0' = some 0 from rfl]
  rw [if_pos (show (0:Nat) * 4096 + 0 * 256 + a3 * 16 + a4 < 0xD800 ∨
    0xDFFF < (0:Nat) * 4096 + 0 * 256 + a3 * 16 + a4 from Or.inl (by omega))]
  have hv : (0:Nat) * 4096 + 0 * 256 + a3 * 16 + a4 = a3 * 16 + a4 := by omega
  rw [hv]
  rw [if_neg (by decide)]

theorem pStringBody_escape (s : Str) (rest : Str) :
    pStringBody (jsonEscape s ++ '"' :: rest) = some (s, rest) := by
  induction s with
  | nil =>
    rw [jsonEscape, List.nil_append, pStringBody.eq_def]
    simp
  | cons c t ih =>
    have hofc : Char.ofNat c.toNat = c := Char.ofNat_toNat c
    rw [jsonEscape, List.append_assoc]
    by_cases h1 : c = '"'
    · subst h1
      rw [show jsonEscapeChar '"' = ['\\', '"'] from rfl]
      simp only [List.cons_append, List.nil_append]
      rw [pStringBody.eq_def]
      simp only []
      simp +decide [escCharOf, ih]
    · by_cases h2 : c = '\\'
      · subst h2
        rw [show jsonEscapeChar '\\' = ['\\', '\\'] from rfl]
        simp only [List.cons_append, List.nil_append]
        rw [pStringBody.eq_def]
        simp only []
        simp +decide [escCharOf, ih]
      · by_cases h3 : c.toNat = 8
        · have hc : c = Char.ofNat 8 := by rw [← h3, hofc]
          subst hc
          rw [show jsonEscapeChar (Char.ofNat 8) = ['\\', 'b'] from rfl]
          simp only [List.cons_append, List.nil_append]
          rw [pStringBody.eq_def]
          simp only []
          simp +decide [escCharOf, ih]
        · by_cases h4 : c = '\t'
          · subst h4
            rw [show jsonEscapeChar '\t' = ['\\', 't'] from rfl]
            simp only [List.cons_append, List.nil_append]
            rw [pStringBody.eq_def]
            simp only []
            simp +decide [escCharOf, ih]
          · by_cases h5 : c = '\n'
            · subst h5
              rw [show jsonEscapeChar '\n' = ['\\', 'n'] from rfl]
              simp only [List.cons_append, List.nil_append]
              rw [pStringBody.eq_def]
              simp only []
              simp +decide [escCharOf, ih]
            · by_cases h6 : c.toNat = 12
              · have hc : c = Char.ofNat 12 := by rw [← h6, hofc]
                subst hc
                rw [show jsonEscapeChar (Char.ofNat 12) = ['\\', 'f'] from rfl]
                simp only [List.cons_append, List.nil_append]
                rw [pStringBody.eq_def]
                simp only []
                simp +decide [escCharOf, ih]
              · by_cases h7 : c = '\r'
                · subst h7
                  rw [show jsonEscapeChar '\r' = ['\\', 'r'] from rfl]
                  simp only [List.cons_append, List.nil_append]
                  rw [pStringBody.eq_def]
                  simp only []
                  simp +decide [escCharOf, ih]
                · by_cases h8 : c.toNat < 0x20
                  · rw [jsonEscapeChar]
                    rw [if_neg h1, if_neg h2, if_neg h3, if_neg h4, if_neg h5,
                      if_neg h6, if_neg h7, if_pos h8]
                    simp only [List.cons_append, List.nil_append]
                    rw [pStringBody_hexEscape (c.toNat / 16) (c.toNat % 16)
                      (by omega) (by omega) (by omega), ih]
                    have harith : c.toNat / 16 * 16 + c.toNat % 16 = c.toNat := by
                      omega
                    simp [harith, hofc]
                  · rw [jsonEscapeChar]
                    rw [if_neg h1, if_neg h2, if_neg h3, if_neg h4, if_neg h5,
                      if_neg h6, if_neg h7, if_neg h8]
                    simp only [List.cons_append, List.nil_append]
                    rw [pStringBody.eq_def]
                    simp only []
                    rw [if_neg h1, if_neg h2, if_neg h8, ih]
                    rfl

theorem digitChar_facts :
    ∀ d, d < 10 →
      isDigit (digitChar d) = true ∧ (digitChar d).toNat - 48 = d ∧
      digitChar d ≠ '-' ∧ jsonWsChar (digitChar d) = false ∧
      digitChar d ≠ '"' ∧ digitChar d ≠ lbraceC ∧ digitChar d ≠ '[' ∧
      digitChar d ≠ 't' ∧ digitChar d ≠ 'f' ∧ digitChar d ≠ 'n' := by
  decide

theorem natDigitsF_lt_ten (f : Nat) : ∀ n, ∀ d ∈ natDigitsF f n, d < 10 := by
  induction f with
  | zero =>
    intro n d hd
    simp only [natDigitsF, List.mem_singleton] at hd
    omega
  | succ g ih =>
    intro n d hd
    rw [natDigitsF] at hd
    by_cases h : n < 10
    · rw [if_pos h] at hd
      simp only [List.mem_singleton] at hd
      omega
    · rw [if_neg h] at hd
      rcases List.mem_append.1 hd with h1 | h1
      · exact ih _ d h1
      · simp only [List.mem_singleton] at h1
        omega

theorem natDigitsF_ne_nil (f n : Nat) : natDigitsF f n ≠ [] := by
  cases f with
  | zero => simp [natDigitsF]
  | succ g =>
    rw [natDigitsF]
    by_cases h : n < 10
    · simp [h]
    · simp [h]

theorem natDigitsF_foldl (f : Nat) :
    ∀ n acc, n ≤ f →
      (natDigitsF f n).foldl (fun a d => a * 10 + d) acc
        = acc * 10 ^ (natDigitsF f n).length + n := by
  induction f with
  | zero =>
    intro n acc hn
    have hn0 : n = 0 := by omega
    subst hn0
    simp [natDigitsF]
  | succ g ih =>
    intro n acc hn
    rw [natDigitsF]
    by_cases h : n < 10
    · rw [if_pos h]
      simp
    · rw [if_neg h]
      rw [List.foldl_append, ih (n / 10) acc (by omega)]
      simp only [List.foldl_cons, List.foldl_nil, List.length_append,
        List.length_singleton]
      rw [pow_succ]
      have : n / 10 * 10 + n % 10 = n := by omega
      ring_nf
      omega

theorem takeDigits_map (ds : List Nat) (hds : ∀ d ∈ ds, d < 10) (rest : Str)
    (hrest : noDigitHead rest) :
    ∀ acc, takeDigits (ds.map digitChar ++ rest) acc
      = (ds.foldl (fun a d => a * 10 + d) acc, rest) := by
  induction ds with
  | nil =>
    intro acc
    simp only [List.map_nil, List.nil_append, List.foldl_nil]
    cases rest with
    | nil => rfl
    | cons c r =>
      rw [takeDigits]
      rw [noDigitHead] at hrest
      rw [if_neg (by simp [hrest])]
  | cons d ds ih =>
    intro acc
    have hd := digitChar_facts d (hds d (by simp))
    simp only [List.map_cons, List.cons_append]
    rw [takeDigits, if_pos hd.1, hd.2.1, List.foldl_cons]
    exact ih (fun x hx => hds x (by simp [hx])) (acc * 10 + d)

theorem natDigits_foldl_zero (n : Nat) :
    (natDigits n).foldl (fun a d => a * 10 + d) 0 = n := by
  rw [natDigits, natDigitsF_foldl n n 0 le_rfl]
  simp

theorem pNumber_natToStr (n : Nat) (rest : Str) (hrest : noDigitHead rest) :
    pNumber (natToStr n ++ rest) = some ((n : Int), rest) := by
  obtain ⟨d, ds, hds⟩ : ∃ d ds, natDigits n = d :: ds := by
    cases h : natDigits n with
    | nil => exact absurd h (natDigitsF_ne_nil n n)
    | cons d ds => exact ⟨d, ds, rfl⟩
  have hlt : ∀ x ∈ d :: ds, x < 10 := by
    rw [← hds]
    exact natDigitsF_lt_ten n n
  have hdfacts := digitChar_facts d (hlt d (by simp))
  have hfold : (d :: ds).foldl (fun a d => a * 10 + d) 0 = n := by
    rw [← hds]
    exact natDigits_foldl_zero n
  rw [natToStr, hds]
  simp only [List.map_cons, List.cons_append]
  rw [pNumber.eq_def]
  simp only []
  rw [if_neg (by simp [hdfacts.2.2.1]), if_pos hdfacts.1]
  rw [hdfacts.2.1]
  rw [takeDigits_map ds (fun x hx => hlt x (by simp [hx])) rest hrest]
  simp only [List.foldl_cons] at hfold
  simp only [Nat.zero_mul, Nat.zero_add] at hfold
  rw [hfold]

theorem pValue_quote (s : Str) (rest : Str) (f : Nat) :
    pValue (f + 1) (quoteStr s ++ rest) = some (Json.jstr s, rest) := by
  rw [quoteStr]
  simp only [List.cons_append, List.append_assoc, List.singleton_append,
    List.nil_append]
  rw [pValue.eq_def]
  simp only []
  rw [skipWs_cons _ _ (by decide)]
  simp only []
  rw [if_pos trivial, pStringBody_escape]

theorem pValue_natNum (n : Nat) (rest : Str) (f : Nat) (hrest : noDigitHead rest) :
    pValue (f + 1) (natToStr n ++ rest) = some (Json.jnum (n : Int), rest) := by
  obtain ⟨d, ds, hds⟩ : ∃ d ds, natDigits n = d :: ds := by
    cases h : natDigits n with
    | nil => exact absurd h (natDigitsF_ne_nil n n)
    | cons d ds => exact ⟨d, ds, rfl⟩
  have hlt : ∀ x ∈ d :: ds, x < 10 := by
    rw [← hds]
    exact natDigitsF_lt_ten n n
  have hdf := digitChar_facts d (hlt d (by simp))
  have hshape : natToStr n ++ rest = digitChar d :: (ds.map digitChar ++ rest) := by
    rw [natToStr, hds]
    simp
  rw [hshape, pValue.eq_def]
  simp only []
  rw [skipWs_cons _ _ hdf.2.2.2.1]
  simp only []
  rw [if_neg hdf.2.2.2.2.1, if_neg hdf.2.2.2.2.2.1, if_neg hdf.2.2.2.2.2.2.1,
    if_neg hdf.2.2.2.2.2.2.2.1, if_neg hdf.2.2.2.2.2.2.2.2.1,
    if_neg hdf.2.2.2.2.2.2.2.2.2]
  rw [← hshape, pNumber_natToStr n rest hrest]

theorem renderScalar_noDigitHead_ok (v : Json) (hv : isScalarPayload v)
    (rest : Str) (hrest : noDigitHead rest) (f : Nat) :
    pValue (f + 1) (renderScalar v ++ rest) = some (v, rest) := by
  rcases hv with ⟨s, rfl⟩ | ⟨n, rfl⟩
  · rw [renderScalar]
    exact pValue_quote s rest f
  · rw [renderScalar, if_neg (by omega)]
    have : ((n : Int)).toNat = n := by omega
    rw [this]
    exact pValue_natNum n rest f hrest

theorem noDigitHead_cons (c : Char) (t : Str) (h : isDigit c = false) :
    noDigitHead (c :: t) := h

theorem renderScalar_ok (v : Json) (hv : isScalarPayload v)
    (rest : Str) (hrest : noDigitHead rest) (f : Nat) (hf : 1 ≤ f) :
    pValue f (renderScalar v ++ rest) = some (v, rest) := by
  cases f with
  | zero => omega
  | succ g => exact renderScalar_noDigitHead_ok v hv rest hrest g

theorem pMembers_render (ms : List (Str × Json)) :
    ∀ (rest : Str) (f : Nat), ms ≠ [] → ms.length < f →
      (∀ m ∈ ms, isScalarPayload m.2) →
      pMembers f (renderMembers ms ++ rbraceC :: rest) = some (ms, rest) := by
  induction ms with
  | nil =>
    intro rest f hne
    exact absurd rfl hne
  | cons m ms ih =>
    intro rest f _ hf hscalar
    obtain ⟨g, rfl⟩ : ∃ g, f = g + 1 := ⟨f - 1, by omega⟩
    obtain ⟨k, v⟩ := m
    have hv : isScalarPayload v := hscalar (k, v) (by simp)
    cases ms with
    | nil =>
      rw [show renderMembers [(k, v)] = renderMember (k, v) from rfl,
        renderMember, quoteStr]
      simp only [List.cons_append, List.append_assoc, List.singleton_append,
        List.nil_append]
      rw [pMembers.eq_def]
      simp only []
      rw [skipWs_cons _ _ (by decide)]
      simp only []
      rw [if_pos trivial, pStringBody_escape]
      simp only []
      rw [skipWs_cons _ _ (by decide)]
      simp only []
      rw [renderScalar_ok v hv _ (noDigitHead_cons _ _ (by decide)) g
        (by simp only [List.length_singleton] at hf; omega)]
      simp only []
      rw [skipWs_cons _ _ (by decide)]
      simp only []
      simp +decide
    | cons m2 ms2 =>
      rw [show renderMembers ((k, v) :: m2 :: ms2)
          = renderMember (k, v) ++ ',' :: renderMembers (m2 :: ms2) from rfl,
        renderMember, quoteStr]
      simp only [List.cons_append, List.append_assoc, List.singleton_append,
        List.nil_append]
      rw [pMembers.eq_def]
      simp only []
      rw [skipWs_cons _ _ (by decide)]
      simp only []
      rw [if_pos trivial, pStringBody_escape]
      simp only []
      rw [skipWs_cons _ _ (by decide)]
      simp only []
      rw [renderScalar_ok v hv _ (noDigitHead_cons _ _ (by decide)) g
        (by simp only [List.length_cons] at hf; omega)]
      simp only []
      rw [skipWs_cons _ _ (by decide)]
      simp only []
      rw [if_pos trivial]
      rw [ih rest g (by simp) (by simp only [List.length_cons] at hf ⊢; omega)
        (fun x hx => hscalar x (by simp [hx]))]

theorem renderMembers_head (ms : List (Str × Json)) (hne : ms ≠ []) :
    ∃ tail, renderMembers ms = '"' :: tail := by
  cases ms with
  | nil => exact absurd rfl hne
  | cons m ms =>
    cases ms with
    | nil =>
      refine ⟨jsonEscape m.1 ++ '"' :: ':' :: renderScalar m.2, ?_⟩
      rw [show renderMembers [m] = renderMember m from rfl, renderMember, quoteStr]
      simp
    | cons m2 ms2 =>
      refine ⟨jsonEscape m.1 ++ '"' :: ':' ::
        (renderScalar m.2 ++ ',' :: renderMembers (m2 :: ms2)), ?_⟩
      rw [show renderMembers (m :: m2 :: ms2)
          = renderMember m ++ ',' :: renderMembers (m2 :: ms2) from rfl,
        renderMember, quoteStr]
      simp

theorem pValue_objRender (ms : List (Str × Json)) (rest : Str) (f : Nat)
    (hne : ms ≠ []) (hf : ms.length + 1 < f)
    (hscalar : ∀ m ∈ ms, isScalarPayload m.2) :
    pValue f (lbraceC :: (renderMembers ms ++ rbraceC :: rest))
      = some (Json.jobj ms, rest) := by
  obtain ⟨g, rfl⟩ : ∃ g, f = g + 1 := ⟨f - 1, by omega⟩
  obtain ⟨tail, htail⟩ := renderMembers_head ms hne
  rw [pValue.eq_def]
  simp only []
  rw [skipWs_cons _ _ (by decide)]
  simp only []
  rw [if_pos trivial]
  rw [htail]
  simp only [List.cons_append]
  rw [skipWs_cons _ _ (by decide)]
  simp only []
  rw [← List.cons_append, ← htail]
  rw [pMembers_render ms rest g hne (by omega) hscalar]
  simp +decide

theorem renderMember_length_pos (m : Str × Json) : 1 ≤ (renderMember m).length := by
  rw [renderMember, quoteStr]
  simp

theorem renderMembers_length_ge (ms : List (Str × Json)) :
    ms.length ≤ (renderMembers ms).length := by
  induction ms with
  | nil => simp [renderMembers]
  | cons m ms ih =>
    cases ms with
    | nil =>
      have := renderMember_length_pos m
      rw [show renderMembers [m] = renderMember m from rfl]
      simpa using this
    | cons m2 ms2 =>
      have h1 := renderMember_length_pos m
      rw [show renderMembers (m :: m2 :: ms2)
          = renderMember m ++ ',' :: renderMembers (m2 :: ms2) from rfl]
      simp only [List.length_append, List.length_cons] at ih ⊢
      omega

theorem jsonParse_serializePayload (st : Str) (off : Nat)
    (modeField : Option Str) :
    jsonParse (serializePayload st off modeField)
      = some (Json.jobj (payloadFields st off modeField)) := by
  have hfields : ∀ m ∈ payloadFields st off modeField, isScalarPayload m.2 := by
    intro m hm
    cases modeField with
    | none =>
      rw [payloadFields.eq_def] at hm
      simp only [List.append_nil, List.mem_cons, List.not_mem_nil, or_false] at hm
      rcases hm with rfl | rfl | rfl
      · exact Or.inr ⟨2, rfl⟩
      · exact Or.inl ⟨st, rfl⟩
      · exact Or.inr ⟨off, rfl⟩
    | some m0 =>
      rw [payloadFields.eq_def] at hm
      simp only [List.mem_append, List.mem_cons, List.not_mem_nil, or_false,
        List.mem_singleton] at hm
      rcases hm with (rfl | rfl | rfl) | rfl
      · exact Or.inr ⟨2, rfl⟩
      · exact Or.inl ⟨st, rfl⟩
      · exact Or.inr ⟨off, rfl⟩
      · exact Or.inl ⟨m0, rfl⟩
  have hne : payloadFields st off modeField ≠ [] := by
    rw [payloadFields.eq_def]
    cases modeField <;> simp
  have hser : serializePayload st off modeField
      = lbraceC ::
        (renderMembers (payloadFields st off modeField) ++ rbraceC :: ([] : Str)) := by
    rw [serializePayload.eq_def, payloadFields.eq_def]
  rw [hser, jsonParse]
  have hlen : (payloadFields st off modeField).length + 1
      < (lbraceC ::
          (renderMembers (payloadFields st off modeField) ++
            rbraceC :: ([] : Str))).length + 1 := by
    have h1 := renderMembers_length_ge (payloadFields st off modeField)
    simp only [List.length_cons, List.length_append]
    omega
  rw [pValue_objRender _ [] _ hne hlen hfields]
  simp [skipWs]

/-! ### Round-trip of the token codec -/

theorem isPrefixOf_self_append (l r : Str) : l.isPrefixOf (l ++ r) = true := by
  induction l with
  | nil => simp [List.isPrefixOf]
  | cons c t ih => simp [List.isPrefixOf, ih]

theorem getField_payload_v (st : Str) (off : Nat) (mf : Option Str) :
    getField (Json.jobj (payloadFields st off mf)) (strL "v")
      = some (Json.jnum 2) := by
  cases mf <;> simp +decide [getField, payloadFields, lookupLast]

theorem getField_payload_skipToken (st : Str) (off : Nat) (mf : Option Str) :
    getField (Json.jobj (payloadFields st off mf)) (strL "skipToken")
      = some (Json.jstr st) := by
  cases mf <;> simp +decide [getField, payloadFields, lookupLast]

theorem getField_payload_offset (st : Str) (off : Nat) (mf : Option Str) :
    getField (Json.jobj (payloadFields st off mf)) (strL "offset")
      = some (Json.jnum (off : Int)) := by
  cases mf <;> simp +decide [getField, payloadFields, lookupLast]

theorem getField_payload_mode (st : Str) (off : Nat) (mf : Option Str) :
    getField (Json.jobj (payloadFields st off mf)) (strL "mode")
      = mf.map Json.jstr := by
  cases mf <;> simp +decide [getField, payloadFields, lookupLast]

theorem tryDecodeV2_encoded (st : Str) (off : Nat) (mf : Option Str)
    (hst : trimStr st ≠ []) :
    tryDecodeV2 (base64UrlEncode (serializePayload st off mf))
      = some
          { skipToken := if st = firstPageSkipToken then none else some st
            offset := off
            mode := mf
            legacy := false } := by
  unfold tryDecodeV2
  rw [base64UrlDecode_encode, jsonParse_serializePayload]
  simp only []
  rw [getField_payload_v]
  simp only [asNum]
  rw [if_pos trivial]
  rw [getField_payload_skipToken]
  simp only [asStr]
  rw [if_neg hst]
  rw [getField_payload_offset]
  simp only [asNum]
  rw [if_neg (by omega)]
  rw [getField_payload_mode]
  cases mf with
  | none => simp [asStr]
  | some m => simp [asStr]

/-- Round-trip of the codec on payloads whose cursor, when present, has a
non-empty trim (the decoder re-validates this), stated over the normalized
mode actually embedded by `encodeNextPageToken`. -/
theorem decodeNextPageToken_encode (cursor : Option Str) (off : Nat)
    (mode : Option Str)
    (hc : ∀ s, cursor = some s → trimStr s ≠ [])
    (hm : ∀ m, mode = some m → m ≠ []) :
    decodeNextPageToken (some (encodeNextPageToken cursor (off : Int) mode))
      = { skipToken :=
            match cursor with
            | none => none
            | some s => if s = firstPageSkipToken then none else some s
          offset := off
          mode := mode
          legacy := false } := by
  have hmf : modeNormalize mode = mode := by
    cases mode with
    | none => rfl
    | some m => simp [modeNormalize, hm m rfl]
  have hst : trimStr (cursor.getD firstPageSkipToken) ≠ [] := by
    cases cursor with
    | none => decide
    | some s => exact hc s rfl
  rw [encodeNextPageToken, decodeNextPageToken]
  rw [if_neg (by simp [v2Tag, strL]), if_pos (isPrefixOf_self_append _ _)]
  rw [show (3 : Nat) = v2Tag.length from rfl, List.drop_left]
  rw [show ((off : Int)).toNat = off from rfl, hmf]
  rw [tryDecodeV2_encoded _ _ _ hst]
  cases cursor with
  | none => simp
  | some s => simp

theorem tryDecodeV2_none_iff (enc : Str) :
    tryDecodeV2 enc = none ↔ malformedV2 enc := by
  unfold tryDecodeV2 malformedV2
  cases hp : jsonParse (base64UrlDecode enc) with
  | none => simp
  | some parsed =>
    simp only []
    cases hv : asNum (getField parsed (strL "v")) with
    | none => simp
    | some vnum =>
      simp only []
      by_cases h2 : vnum = 2
      · subst h2
        rw [if_pos rfl]
        cases hst : asStr (getField parsed (strL "skipToken")) with
        | none => simp
        | some st =>
          simp only []
          by_cases htr : trimStr st = []
          · simp [htr]
          · rw [if_neg htr]
            cases hoff : asNum (getField parsed (strL "offset")) with
            | none => simp [htr]
            | some off =>
              simp only []
              by_cases hlt : off < 0
              · simp [hlt]
              · rw [if_neg hlt]
                simp [htr, hlt]
      · rw [if_neg h2]
        simp [h2]

/-! ## Claim theorems: pagination token codec (C5, C6) -/

/-- C5 (counterexample): the round-trip claim fails as stated — a payload
whose cursor is the whitespace-only string `" "` (offset 0, no mode) is
well-formed per the claim, yet decoding its encoding degrades to the legacy
interpretation instead of returning the payload. -/
theorem C5_roundtrip_counterexample :
    decodeNextPageToken (some (encodeNextPageToken (some (strL " "))
        ((0 : Nat) : Int) none))
      ≠ { skipToken := some (strL " "), offset := 0, mode := none,
          legacy := false } := by
  decide

/-- C5 (amended): for every token payload {cursor, offset, mode} with offset a
non-negative integer, mode either absent or a non-empty string, and cursor
either absent or a string with non-empty trim, decoding the encoded token
yields back exactly the same cursor (with the first-page sentinel resolving to
an absent cursor), the same offset, the same mode, and legacy = false. -/
theorem C5_roundtrip_amended (cursor : Option Str) (off : Nat)
    (mode : Option Str)
    (hc : ∀ s, cursor = some s → trimStr s ≠ [])
    (hm : ∀ m, mode = some m → m ≠ []) :
    decodeNextPageToken (some (encodeNextPageToken cursor (off : Int) mode))
      = { skipToken :=
            match cursor with
            | none => none
            | some s => if s = firstPageSkipToken then none else some s
          offset := off
          mode := mode
          legacy := false } :=
  decodeNextPageToken_encode cursor off mode hc hm

/-- Witness for C5: a concrete cursor/offset/mode round-trips. -/
theorem C5_roundtrip_amended_witness :
    decodeNextPageToken (some (encodeNextPageToken (some (strL "abc"))
        ((5 : Nat) : Int) (some (strL "search"))))
      = { skipToken := some (strL "abc"), offset := 5,
          mode := some (strL "search"), legacy := false } := by
  have h := C5_roundtrip_amended (some (strL "abc")) 5 (some (strL "search"))
    (by intro s hs; cases hs; decide) (by intro m hm2; cases hm2; decide)
  rw [h]
  decide

/-- C6: total decode with legacy degradation.  `decodeNextPageToken` is a
total function (the model of "never throws"); an absent or empty token decodes
to `{offset 0, legacy}` with no cursor; a token without the `v2:` prefix
decodes to `{cursor: the token, offset 0, legacy}`; and a `v2:`-prefixed token
whose remainder fails to parse, has a wrong version, or has a malformed
cursor or offset (`malformedV2`) degrades to the same legacy interpretation
with the raw token string as cursor. -/
theorem C6_decode_legacy_degradation :
    decodeNextPageToken none = ⟨none, 0, none, true⟩
    ∧ decodeNextPageToken (some []) = ⟨none, 0, none, true⟩
    ∧ (∀ t : Str, t ≠ [] → v2Tag.isPrefixOf t = false →
        decodeNextPageToken (some t) = ⟨some t, 0, none, true⟩)
    ∧ (∀ t : Str, t ≠ [] → v2Tag.isPrefixOf t = true → malformedV2 (t.drop 3) →
        decodeNextPageToken (some t) = ⟨some t, 0, none, true⟩) := by
  refine ⟨rfl, rfl, ?_, ?_⟩
  · intro t ht hpre
    rw [decodeNextPageToken]
    rw [if_neg ht, if_neg (by simp [hpre])]
  · intro t ht hpre hmal
    rw [decodeNextPageToken]
    rw [if_neg ht, if_pos hpre]
    rw [show tryDecodeV2 (t.drop 3) = none from (tryDecodeV2_none_iff _).2 hmal]

/-- Witness for C6: a raw legacy cursor and a `v2:`-prefixed garbage token
both decode to the legacy interpretation. -/
theorem C6_decode_legacy_degradation_witness :
    decodeNextPageToken (some (strL "opaque-cursor"))
      = ⟨some (strL "opaque-cursor"), 0, none, true⟩
    ∧ decodeNextPageToken (some (strL "v2:%%%"))
      = ⟨some (strL "v2:%%%"), 0, none, true⟩ := by
  refine ⟨C6_decode_legacy_degradation.2.2.1 (strL "opaque-cursor") (by decide)
    (by decide), C6_decode_legacy_degradation.2.2.2 (strL "v2:%%%") (by decide)
    (by decide) ?_⟩
  show malformedV2 (List.drop 3 (strL "v2:%%%"))
  exact trivial

/-! ## Claim theorems: client predicate (C8, C10) and category duality (C9) -/

theorem evaluateOperator_inactive (o : FieldOp) (matcher : Str → Bool)
    (norm : Str → Option Str)
    (h1 : opActive o.anyV = false) (h2 : opActive o.allV = false)
    (h3 : opActive o.noneV = false) :
    evaluateOperator (QVal.op o) matcher norm = false := by
  simp [evaluateOperator, h1, h2, h3]

/-- C10: a field-operator object in which none of `$any`, `$all`, `$none` is a
non-empty array makes its leaf predicate false on every message, for every one
of the nine operator fields; while a leaf with no recognized keys at all is
vacuously true on every message. -/
theorem C10_empty_operator_unsatisfiable :
    (∀ (fld : Fld) (o : FieldOp) (m : Msg) (fuel : Nat),
       (o.anyV = none ∨ o.anyV = some []) →
       (o.allV = none ∨ o.allV = some []) →
       (o.noneV = none ∨ o.noneV = some []) →
       buildClientPredicate (fuel + 1) (mkLeaf fld (QVal.op o)) m = false)
    ∧ (∀ (m : Msg) (fuel : Nat), buildClientPredicate (fuel + 1) emptyQ m = true) := by
  constructor
  · intro fld o m fuel h1 h2 h3
    have hA : opActive o.anyV = false := by rcases h1 with h | h <;> rw [h] <;> rfl
    have hB : opActive o.allV = false := by rcases h2 with h | h <;> rw [h] <;> rfl
    have hC : opActive o.noneV = false := by rcases h3 with h | h <;> rw [h] <;> rfl
    have hop := fun matcher norm => evaluateOperator_inactive o matcher norm hA hB hC
    cases fld <;>
      simp [buildClientPredicate, buildNodePredicate, mkLeaf, leafPredicate,
        Query.andQ, Query.orQ, Query.notQ, Query.fromF, Query.toF, Query.ccF,
        Query.bccF, Query.subjectF, Query.textF, Query.bodyF, Query.categoriesF,
        Query.labelF, Query.exactPhrase, Query.hasAttachment, Query.isRead,
        Query.importance, Query.date, Query.kqlQuery, truthyL, truthyQ, truthyS,
        matchesSubject, matchesText, matchesBody, matchesAddressField,
        matchesRecipientField, matchesCategoryField, matchesLabelField, hop]
  · intro m fuel
    simp [buildClientPredicate, buildNodePredicate, emptyQ, leafPredicate,
      Query.andQ, Query.orQ, Query.notQ, Query.fromF, Query.toF, Query.ccF,
      Query.bccF, Query.subjectF, Query.textF, Query.bodyF, Query.categoriesF,
      Query.labelF, Query.exactPhrase, Query.hasAttachment, Query.isRead,
      Query.importance, Query.date, Query.kqlQuery, truthyL, truthyQ, truthyS]

/-- Witness for C10: the empty `$any` operator on `subject` rejects the empty
message, and the empty leaf accepts it. -/
theorem C10_empty_operator_unsatisfiable_witness :
    buildClientPredicate 1 (mkLeaf Fld.subjectF (QVal.op ⟨some [], none, none⟩))
        emptyMsg = false
    ∧ buildClientPredicate 1 emptyQ emptyMsg = true :=
  ⟨C10_empty_operator_unsatisfiable.1 Fld.subjectF ⟨some [], none, none⟩ emptyMsg 0
      (Or.inr rfl) (Or.inl rfl) (Or.inl rfl),
    C10_empty_operator_unsatisfiable.2 emptyMsg 0⟩

/-- C8 (counterexample): with subject `"ab"` and body `"cd"`, the phrase
`"bc"` is a substring of the concatenation of the normalized text sources,
yet the compiled predicate rejects the message, so the containment-in-the-
concatenation reading of the claim is false. -/
theorem C8_exactPhrase_counterexample :
    normalizeTerm (strL "bc") = some (strL "bc")
    ∧ strContains
        (normalizeForMatch (some (strL "ab")) ++ normalizeForMatch (some (strL "cd"))
          ++ normalizeForMatch none)
        (strL "bc") = true
    ∧ buildClientPredicate 1 (leafExact (strL "bc"))
        { emptyMsg with subject := some (strL "ab"),
                        bodyContent := some (strL "cd") } = false := by
  decide

/-- C8 (amended): for every leaf carrying (only) a non-empty `exactPhrase` and
every message, the compiled predicate accepts iff the whitespace-collapsed,
case-normalized phrase is non-empty and occurs as a substring of at least one
of the message's subject, body, and preview text sources (each normalized the
same way). -/
theorem C8_exactPhrase_amended (m : Msg) (p : Str) (hp : p ≠ []) (fuel : Nat) :
    buildClientPredicate (fuel + 1) (leafExact p) m = true
      ↔ ∃ np, normalizeTerm p = some np
          ∧ ∃ src ∈ getTextSources m, strContains src np = true := by
  have hleaf : buildClientPredicate (fuel + 1) (leafExact p) m
      = matchesExactPhrase m p := by
    simp [buildClientPredicate, buildNodePredicate, leafExact, leafPredicate,
      Query.andQ, Query.orQ, Query.notQ, Query.fromF, Query.toF, Query.ccF,
      Query.bccF, Query.subjectF, Query.textF, Query.bodyF, Query.categoriesF,
      Query.labelF, Query.exactPhrase, Query.hasAttachment, Query.isRead,
      Query.importance, Query.date, Query.kqlQuery, truthyL, truthyQ, truthyS, hp]
  rw [hleaf]
  unfold matchesExactPhrase
  cases hn : normalizeTerm p with
  | none => simp [hn]
  | some np => simp [hn, List.any_eq_true]

/-- Witness for C8: the phrase `"Lo  Wo"` (collapsing to `"lo wo"`) matches a
message whose subject normalizes to `"hello world"`. -/
theorem C8_exactPhrase_amended_witness :
    buildClientPredicate 1 (leafExact (strL "Lo  Wo"))
      { emptyMsg with subject := some (strL "Hello World") } = true := by
  refine (C8_exactPhrase_amended _ _ (by decide) 0).2 ?_
  exact ⟨strL "lo wo", by decide,
    normalizeForMatch (some (strL "Hello World")), by decide, by decide⟩

theorem lookupAssoc_cats_iff (key v : Str) :
    lookupAssoc OUTLOOK_CATEGORIES key = some v ↔
      (v ∈ canonicalCategories ∧ key = lowerStr v) := by
  constructor
  · intro h
    simp only [OUTLOOK_CATEGORIES, lookupAssoc] at h
    split_ifs at h with h1 h2 h3 h4 h5 h6
    · obtain rfl : strL "Personal" = v := by injection h
      exact ⟨by simp [canonicalCategories], by rw [← h1]; decide⟩
    · obtain rfl : strL "Work" = v := by injection h
      exact ⟨by simp [canonicalCategories], by rw [← h2]; decide⟩
    · obtain rfl : strL "Family" = v := by injection h
      exact ⟨by simp [canonicalCategories], by rw [← h3]; decide⟩
    · obtain rfl : strL "Travel" = v := by injection h
      exact ⟨by simp [canonicalCategories], by rw [← h4]; decide⟩
    · obtain rfl : strL "Important" = v := by injection h
      exact ⟨by simp [canonicalCategories], by rw [← h5]; decide⟩
    · obtain rfl : strL "Urgent" = v := by injection h
      exact ⟨by simp [canonicalCategories], by rw [← h6]; decide⟩
  · rintro ⟨hmem, hkey⟩
    simp only [canonicalCategories, List.mem_cons, List.not_mem_nil, or_false]
      at hmem
    subst hkey
    rcases hmem with rfl | rfl | rfl | rfl | rfl | rfl <;> decide

/-- C9: category validation duality.  (i) the normalizer succeeds exactly on
inputs whose trimmed, case-folded form equals that of one of the six canonical
categories, returning the canonical value (so it fails on empty,
whitespace-only, and unknown inputs); (ii) whenever the normalizer rejects a
(truthy) category value, compiling that `categories` leaf through
`buildQueryFilter` aborts with an error; (iii) during client-predicate
evaluation the per-term category matcher catches the normalizer's failure
locally and treats the term as never matching (evaluation being a total
function, the page scan is not aborted). -/
theorem C9_category_validation_duality :
    (∀ s v, mapOutlookCategory s = Except.ok v ↔
       (v ∈ canonicalCategories ∧ lowerStr (trimStr s) = lowerStr v))
    ∧ (∀ (s : Str) (fuel : Nat), s ≠ [] →
        (∃ e, mapOutlookCategory s = Except.error e) →
        ∃ e', buildQueryFilter (fuel + 1) (mkLeaf Fld.categoriesF (QVal.str s))
          = Except.error e')
    ∧ (∀ (cats : List Str) (t e : Str), mapOutlookCategory t = Except.error e →
        categoryMatchTerm cats t = false) := by
  refine ⟨?_, ?_, ?_⟩
  · intro s v
    unfold mapOutlookCategory
    have hne : ∀ w ∈ canonicalCategories, lowerStr w ≠ [] := by decide
    by_cases h0 : s = []
    · rw [if_pos h0]
      subst h0
      constructor
      · intro h
        exact Except.noConfusion h
      · rintro ⟨hmem, hkey⟩
        exact absurd ((show lowerStr (trimStr ([] : Str)) = [] from rfl) ▸ hkey).symm
          (hne v hmem)
    · by_cases ht : trimStr s = []
      · rw [if_neg h0, if_pos ht]
        constructor
        · intro h
          exact Except.noConfusion h
        · rintro ⟨hmem, hkey⟩
          rw [ht] at hkey
          exact absurd hkey.symm (hne v hmem)
      · rw [if_neg h0, if_neg ht]
        cases hlk : lookupAssoc OUTLOOK_CATEGORIES (lowerStr (trimStr s)) with
        | some sys =>
          simp only [hlk]
          constructor
          · intro h
            obtain rfl : sys = v := by injection h
            exact (lookupAssoc_cats_iff _ _).1 hlk
          · intro hr
            have h2 := (lookupAssoc_cats_iff (lowerStr (trimStr s)) v).2 hr
            rw [hlk] at h2
            obtain rfl : sys = v := by injection h2
            rfl
        | none =>
          simp only [hlk]
          constructor
          · intro h
            exact Except.noConfusion h
          · intro hr
            have h2 := (lookupAssoc_cats_iff (lowerStr (trimStr s)) v).2 hr
            rw [hlk] at h2
            exact Option.noConfusion h2
  · intro s fuel hs he
    have hstep : buildQueryFilter (fuel + 1) (mkLeaf Fld.categoriesF (QVal.str s))
        = fv Fld.categoriesF s := by
      simp [buildQueryFilter, emit, mkLeaf, presentCount, emitSingleField,
        Query.andQ, Query.orQ, Query.notQ, Query.fromF, Query.toF, Query.ccF,
        Query.bccF, Query.subjectF, Query.textF, Query.bodyF, Query.categoriesF,
        Query.labelF, Query.exactPhrase, Query.hasAttachment, Query.isRead,
        Query.importance, Query.date, Query.kqlQuery, truthyL, truthyQ, truthyS,
        hs, fieldExpr]
    rw [hstep]
    unfold fv
    rw [if_neg (by decide)]
    by_cases htr : trimStr s = []
    · rw [if_pos htr]
      exact ⟨_, rfl⟩
    · rw [if_neg htr]
      obtain ⟨e, he⟩ := he
      simp only [he]
      exact ⟨e, rfl⟩
  · intro cats t e he
    simp [categoryMatchTerm, he]

/-- Witness for C9: `" WoRk "` normalizes to `Work`; compiling
`{categories: "bogus"}` aborts; the scan-time matcher treats `"bogus"` as
never matching. -/
theorem C9_category_validation_duality_witness :
    mapOutlookCategory (strL " WoRk ") = Except.ok (strL "Work")
    ∧ (∃ e', buildQueryFilter 1 (mkLeaf Fld.categoriesF (QVal.str (strL "bogus")))
        = Except.error e')
    ∧ categoryMatchTerm [strL "Work"] (strL "bogus") = false :=
  ⟨(C9_category_validation_duality.1 (strL " WoRk ") (strL "Work")).2
      ⟨by decide, by decide⟩,
    C9_category_validation_duality.2.1 (strL "bogus") 0 (by decide)
      ⟨strL "Invalid Outlook category", rfl⟩,
    C9_category_validation_duality.2.2 [strL "Work"] (strL "bogus")
      (strL "Invalid Outlook category") rfl⟩

/-! ### Helper lemmas on the executor -/

theorem encodeNextPageToken_v2_shape (c : Option Str) (o : Int) (m : Option Str) :
    ∃ rest, encodeNextPageToken c o m = 'v' :: '2' :: ':' :: rest :=
  ⟨_, rfl⟩

theorem encodeNextPageToken_ne_nil (c : Option Str) (o : Int) (m : Option Str) :
    encodeNextPageToken c o m ≠ [] := by
  obtain ⟨rest, h⟩ := encodeNextPageToken_v2_shape c o m
  simp [h]

theorem normTok_norm (x : Option Str) :
    normTok x = none ∨ ∃ s, normTok x = some s ∧ s ≠ [] := by
  match x with
  | none => exact Or.inl rfl
  | some t =>
    by_cases ht : t = []
    · exact Or.inl (by simp [normTok, ht])
    · exact Or.inr ⟨t, by simp [normTok, ht], ht⟩

theorem pageOf_next_norm (remote : Remote) (p : CollectParams) (cur : Option Str) :
    (pageOf remote p cur).nextSkipToken = none ∨
      ∃ s, (pageOf remote p cur).nextSkipToken = some s ∧ s ≠ [] := by
  simp only [pageOf, fetchGraphPage]
  exact normTok_norm _

theorem scanItems_cap_log (pred : Option (Msg → Bool)) (ps : Nat)
    (mx : Option Nat) :
    ∀ (items coll : List Msg) (sc pos : Nat) (c : List Msg) (s : Nat)
      (log : List Msg),
      scanItems pred ps mx items coll sc pos = ScanRes.cap c s log →
      ∃ r, items = log ++ r := by
  intro items
  induction items with
  | nil => intro coll sc pos c s log h; simp [scanItems] at h
  | cons msg rest ih =>
    intro coll sc pos c s log h
    simp only [scanItems] at h
    by_cases h1 : capScan mx sc
    · rw [if_pos h1] at h
      cases h
      exact ⟨rest, rfl⟩
    · rw [if_neg h1] at h
      by_cases h2 : rejects pred msg
      · rw [if_pos h2] at h
        rcases hrec : scanItems pred ps mx rest coll (sc + 1) (pos + 1) with
          ⟨c', s', l'⟩ | ⟨c', s', l', o'⟩ | ⟨c', s', l'⟩ <;>
          rw [hrec] at h <;> simp [ScanRes.logCons] at h
        obtain ⟨rfl, rfl, rfl⟩ := h
        obtain ⟨r, hr⟩ := ih coll (sc + 1) (pos + 1) c' s' l' hrec
        exact ⟨r, by simp [hr]⟩
      · rw [if_neg h2] at h
        by_cases h3 : coll.length + 1 = ps
        · rw [if_pos h3] at h; cases h
        · rw [if_neg h3] at h
          rcases hrec : scanItems pred ps mx rest (coll ++ [msg]) (sc + 1)
              (pos + 1) with
            ⟨c', s', l'⟩ | ⟨c', s', l', o'⟩ | ⟨c', s', l'⟩ <;>
            rw [hrec] at h <;> simp [ScanRes.logCons] at h
          obtain ⟨rfl, rfl, rfl⟩ := h
          obtain ⟨r, hr⟩ := ih (coll ++ [msg]) (sc + 1) (pos + 1) c' s' l' hrec
          exact ⟨r, by simp [hr]⟩

theorem scanItems_through_log (pred : Option (Msg → Bool)) (ps : Nat)
    (mx : Option Nat) :
    ∀ (items coll : List Msg) (sc pos : Nat) (c : List Msg) (s : Nat)
      (log : List Msg),
      scanItems pred ps mx items coll sc pos = ScanRes.through c s log →
      log = items := by
  intro items
  induction items with
  | nil => intro coll sc pos c s log h; simp [scanItems] at h; exact h.2.2
  | cons msg rest ih =>
    intro coll sc pos c s log h
    simp only [scanItems] at h
    by_cases h1 : capScan mx sc
    · rw [if_pos h1] at h; cases h
    · rw [if_neg h1] at h
      by_cases h2 : rejects pred msg
      · rw [if_pos h2] at h
        rcases hrec : scanItems pred ps mx rest coll (sc + 1) (pos + 1) with
          ⟨c', s', l'⟩ | ⟨c', s', l', o'⟩ | ⟨c', s', l'⟩ <;>
          rw [hrec] at h <;> simp [ScanRes.logCons] at h
        obtain ⟨rfl, rfl, rfl⟩ := h
        rw [ih coll (sc + 1) (pos + 1) c' s' l' hrec]
      · rw [if_neg h2] at h
        by_cases h3 : coll.length + 1 = ps
        · rw [if_pos h3] at h; cases h
        · rw [if_neg h3] at h
          rcases hrec : scanItems pred ps mx rest (coll ++ [msg]) (sc + 1)
              (pos + 1) with
            ⟨c', s', l'⟩ | ⟨c', s', l', o'⟩ | ⟨c', s', l'⟩ <;>
            rw [hrec] at h <;> simp [ScanRes.logCons] at h
          obtain ⟨rfl, rfl, rfl⟩ := h
          rw [ih (coll ++ [msg]) (sc + 1) (pos + 1) c' s' l' hrec]

theorem scanItems_filled_spec (pred : Option (Msg → Bool)) (ps : Nat)
    (mx : Option Nat) :
    ∀ (items coll : List Msg) (sc pos : Nat) (c : List Msg) (s : Nat)
      (log : List Msg) (off : Nat),
      scanItems pred ps mx items coll sc pos = ScanRes.filled c s log off →
      (∃ r, items = log ++ r) ∧
        ∃ j m, items[j]? = some m ∧ off = pos + j + 1 ∧
          c.getLast? = some m ∧ c.length = ps := by
  intro items
  induction items with
  | nil => intro coll sc pos c s log off h; simp [scanItems] at h
  | cons msg rest ih =>
    intro coll sc pos c s log off h
    simp only [scanItems] at h
    by_cases h1 : capScan mx sc
    · rw [if_pos h1] at h; cases h
    · rw [if_neg h1] at h
      by_cases h2 : rejects pred msg
      · rw [if_pos h2] at h
        rcases hrec : scanItems pred ps mx rest coll (sc + 1) (pos + 1) with
          ⟨c', s', l'⟩ | ⟨c', s', l', o'⟩ | ⟨c', s', l'⟩ <;>
          rw [hrec] at h <;> simp [ScanRes.logCons] at h
        obtain ⟨rfl, rfl, rfl, rfl⟩ := h
        obtain ⟨⟨r, hr⟩, j, m, hj, hoff, hlast, hlen⟩ :=
          ih coll (sc + 1) (pos + 1) c' s' l' o' hrec
        refine ⟨⟨r, by simp [hr]⟩, j + 1, m, ?_, by omega, hlast, hlen⟩
        simpa using hj
      · rw [if_neg h2] at h
        by_cases h3 : coll.length + 1 = ps
        · rw [if_pos h3] at h
          cases h
          refine ⟨⟨rest, rfl⟩, 0, msg, by simp, by omega, ?_, by simp; omega⟩
          simp
        · rw [if_neg h3] at h
          rcases hrec : scanItems pred ps mx rest (coll ++ [msg]) (sc + 1)
              (pos + 1) with
            ⟨c', s', l'⟩ | ⟨c', s', l', o'⟩ | ⟨c', s', l'⟩ <;>
            rw [hrec] at h <;> simp [ScanRes.logCons] at h
          obtain ⟨rfl, rfl, rfl, rfl⟩ := h
          obtain ⟨⟨r, hr⟩, j, m, hj, hoff, hlast, hlen⟩ :=
            ih (coll ++ [msg]) (sc + 1) (pos + 1) c' s' l' o' hrec
          refine ⟨⟨r, by simp [hr]⟩, j + 1, m, ?_, by omega, hlast, hlen⟩
          simpa using hj

/-- Combined invariant of the scan loop: the reported last next-cursor is
normalised (never an empty string), a computed mid-page token encodes the
cursor of the page that filled the buffer together with one past the
full-page index of the last accepted item, and the inspected items form a
prefix of the expected raw item stream. -/
theorem collectLoop_spec (remote : Remote) (p : CollectParams) :
    ∀ (fuel : Nat) (cur : Option Str) (off : Nat) (coll : List Msg)
      (lastN : Option Str) (pf sc : Nat) (res : CollectResult)
      (tr : List FetchReq) (lg : List Msg),
      collectLoop remote p fuel cur off coll lastN pf sc = some (res, tr, lg) →
      (lastN = none ∨ ∃ s, lastN = some s ∧ s ≠ []) →
      ((res.nextSkipToken = none ∨ ∃ s, res.nextSkipToken = some s ∧ s ≠ []) ∧
        (res.midPageToken = none ∨
          ∃ pcur pos m,
            res.midPageToken =
              some (encodeNextPageToken pcur ((pos + 1 : Nat) : Int)
                (some p.mode)) ∧
            (pageOf remote p pcur).messages[pos]? = some m ∧
            res.collected.getLast? = some m ∧
            res.collected.length = p.pageSize ∧ res.capHit = false) ∧
        (∃ rest, streamFrom remote p fuel cur off = lg ++ rest)) := by
  intro fuel
  induction fuel with
  | zero =>
    intro cur off coll lastN pf sc res tr lg h _
    simp [collectLoop] at h
  | succ fuel ih =>
    intro cur off coll lastN pf sc res tr lg h hlast
    simp only [collectLoop] at h
    by_cases h1 : p.pageSize ≤ coll.length
    · rw [if_pos h1] at h
      cases h
      exact ⟨hlast, Or.inl rfl, ⟨streamFrom remote p (fuel + 1) cur off, rfl⟩⟩
    · rw [if_neg h1] at h
      by_cases h2 : capPages p pf
      · rw [if_pos h2] at h
        cases h
        exact ⟨hlast, Or.inl rfl, ⟨streamFrom remote p (fuel + 1) cur off, rfl⟩⟩
      · rw [if_neg h2] at h
        by_cases h3 : (pageOf remote p cur).messages.length = 0
        · rw [if_pos h3] at h
          cases h
          refine ⟨pageOf_next_norm remote p cur, Or.inl rfl, ⟨[], ?_⟩⟩
          simp only [streamFrom]
          rw [if_pos h3]
          rfl
        · rw [if_neg h3] at h
          rcases hsc : scanItems p.predicate p.pageSize p.maxItemsScanned
              ((pageOf remote p cur).messages.drop off) coll sc off with
            ⟨c', s', l'⟩ | ⟨c', s', l', o'⟩ | ⟨c', s', l'⟩
          · rw [hsc] at h
            cases h
            obtain ⟨r, hr⟩ := scanItems_cap_log _ _ _ _ _ _ _ _ _ _ hsc
            refine ⟨pageOf_next_norm remote p cur, Or.inl rfl,
              ⟨r ++ (if truthyS (pageOf remote p cur).nextSkipToken then
                streamFrom remote p fuel (pageOf remote p cur).nextSkipToken 0
              else []), ?_⟩⟩
            simp only [streamFrom]
            rw [if_neg h3, hr]
            simp [List.append_assoc]
          · rw [hsc] at h
            cases h
            obtain ⟨⟨r, hr⟩, j, m, hj, hoff, hlastm, hlen⟩ :=
              scanItems_filled_spec _ _ _ _ _ _ _ _ _ _ _ hsc
            refine ⟨pageOf_next_norm remote p cur,
              Or.inr ⟨cur, off + j, m, ?_, ?_, hlastm, hlen, rfl⟩,
              ⟨r ++ (if truthyS (pageOf remote p cur).nextSkipToken then
                streamFrom remote p fuel (pageOf remote p cur).nextSkipToken 0
              else []), ?_⟩⟩
            · rw [hoff]
            · rw [← hj]
              exact (List.getElem?_drop _ _ _).symm
            · simp only [streamFrom]
              rw [if_neg h3, hr]
              simp [List.append_assoc]
          · rw [hsc] at h
            simp only [] at h
            have hl := scanItems_through_log _ _ _ _ _ _ _ _ _ _ hsc
            by_cases h4 : truthyS (pageOf remote p cur).nextSkipToken
            · rw [if_pos h4] at h
              rcases hrec : collectLoop remote p fuel
                  (pageOf remote p cur).nextSkipToken 0 c'
                  (pageOf remote p cur).nextSkipToken (pf + 1) s' with
                _ | ⟨res', tr', lg'⟩
              · rw [hrec] at h
                cases h
              · rw [hrec] at h
                cases h
                obtain ⟨hn, hm, ⟨rest, hstream⟩⟩ :=
                  ih _ _ _ _ _ _ _ _ _ hrec (pageOf_next_norm remote p cur)
                refine ⟨hn, hm, ⟨rest, ?_⟩⟩
                simp only [streamFrom]
                rw [if_neg h3, hl]
                simp [h4, hstream, List.append_assoc]
            · rw [if_neg h4] at h
              cases h
              refine ⟨pageOf_next_norm remote p cur, Or.inl rfl, ⟨[], ?_⟩⟩
              simp only [streamFrom]
              rw [if_neg h3, hl]
              simp [h4]

/-- `collectLoop_spec` at the entry point `collectClientFilteredPages`. -/
theorem collect_spec (remote : Remote) (p : CollectParams) (fuel : Nat)
    (res : CollectResult) (tr : List FetchReq) (lg : List Msg)
    (h : collectClientFilteredPages remote p fuel = some (res, tr, lg)) :
    (res.nextSkipToken = none ∨ ∃ s, res.nextSkipToken = some s ∧ s ≠ []) ∧
      (res.midPageToken = none ∨
        ∃ pcur pos m,
          res.midPageToken =
            some (encodeNextPageToken pcur ((pos + 1 : Nat) : Int)
              (some p.mode)) ∧
          (pageOf remote p pcur).messages[pos]? = some m ∧
          res.collected.getLast? = some m ∧
          res.collected.length = p.pageSize ∧ res.capHit = false) ∧
      (∃ rest, streamFrom remote p fuel p.startSkipToken p.startOffset =
        lg ++ rest) :=
  collectLoop_spec remote p fuel p.startSkipToken p.startOffset [] none 0 0
    res tr lg h (Or.inl rfl)

/-- C1 (mid-page resumption), confirmed.  Whenever the scan loop returns a
mid-page continuation token, that token encodes (with the pass's mode) the
cursor `cur` that fetched the page that filled the buffer, together with the
index — within that full, unsliced page — of the next unconsumed raw item:
the item one before it is the last message accepted into the now-full output
buffer.  And the raw items the loop inspected are an in-order prefix of the
expected scan stream, which slices the first fetched page from the call's
start offset and every subsequent page from 0. -/
theorem C1_mid_page_resumption (remote : Remote) (p : CollectParams)
    (fuel : Nat) (res : CollectResult) (tr : List FetchReq) (lg : List Msg)
    (h : collectClientFilteredPages remote p fuel = some (res, tr, lg)) :
    (∀ t, res.midPageToken = some t →
      ∃ cur pos m,
        t = encodeNextPageToken cur ((pos + 1 : Nat) : Int) (some p.mode) ∧
        (pageOf remote p cur).messages[pos]? = some m ∧
        res.collected.getLast? = some m ∧
        res.collected.length = p.pageSize ∧ res.capHit = false) ∧
    (∃ rest, streamFrom remote p fuel p.startSkipToken p.startOffset =
      lg ++ rest) := by
  obtain ⟨-, hm, hp⟩ := collect_spec remote p fuel res tr lg h
  refine ⟨?_, hp⟩
  intro t ht
  rcases hm with hnone | ⟨cur, pos, m, he, hj, hl, hlen, hcap⟩
  · rw [hnone] at ht
    cases ht
  · rw [he] at ht
    cases ht
    exact ⟨cur, pos, m, rfl, hj, hl, hlen, hcap⟩

/-- C1's statement at the concrete mid-page scenario. -/
theorem C1_mid_page_resumption_witness :
    (∀ t, cxMidResult.midPageToken = some t →
      ∃ cur pos m,
        t = encodeNextPageToken cur ((pos + 1 : Nat) : Int)
          (some cxParamsMid.mode) ∧
        (pageOf cxRemoteMid cxParamsMid cur).messages[pos]? = some m ∧
        cxMidResult.collected.getLast? = some m ∧
        cxMidResult.collected.length = cxParamsMid.pageSize ∧
        cxMidResult.capHit = false) ∧
    (∃ rest, streamFrom cxRemoteMid cxParamsMid 5 cxParamsMid.startSkipToken
      cxParamsMid.startOffset = cxMidLog ++ rest) :=
  C1_mid_page_resumption cxRemoteMid cxParamsMid 5 cxMidResult cxMidTrace
    cxMidLog rfl

/-- On a collect result whose mid-page token and last cursor are normalised
(as the loop guarantees), the code's result-selection chain agrees with the
claim's precedence reading; when the chain falls through, the claim also
selects no token and the buffer is empty. -/
theorem finishCollect_claim (r : CollectResult) (mode : Str)
    (hmid : r.midPageToken = none ∨ ∃ s, r.midPageToken = some s ∧ s ≠ [])
    (hnext : r.nextSkipToken = none ∨ ∃ s, r.nextSkipToken = some s ∧ s ≠ []) :
    finishCollect r mode =
        some ⟨r.collected,
          claimTokenSelect r.capHit r.midPageToken r.nextSkipToken mode⟩ ∨
      (finishCollect r mode = none ∧
        claimTokenSelect r.capHit r.midPageToken r.nextSkipToken mode = none ∧
        r.collected = [] ∧ r.capHit = false) := by
  by_cases hc : r.capHit = true
  · left
    simp [finishCollect, claimTokenSelect, hc]
  · have hc' : r.capHit = false := by
      revert hc; cases r.capHit <;> simp
    rcases hmid with hm | ⟨s, hm, hs⟩
    · rcases hnext with hn | ⟨sn, hn, hsn⟩
      · by_cases hlen : 0 < r.collected.length
        · left
          simp [finishCollect, claimTokenSelect, hc', hm, hn, truthyS, hlen]
        · right
          have hemp : r.collected = [] := by
            cases hcol : r.collected with
            | nil => rfl
            | cons a l => rw [hcol] at hlen; simp at hlen
          refine ⟨?_, ?_, hemp, hc'⟩
          · simp [finishCollect, hc', hm, hn, truthyS, hlen]
          · simp [claimTokenSelect, hc', hm, hn]
      · left
        simp [finishCollect, claimTokenSelect, hc', hm, hn, truthyS, hsn]
    · left
      simp [finishCollect, claimTokenSelect, hc', hm, truthyS, hs]

/-- C2 (result token selection precedence), confirmed.  On the full-text path
the returned `nextPageToken` follows the claimed priority over whichever
collect pass produced the returned result: capped → none; else a computed
mid-page token as-is; else the last page's remote next-cursor re-encoded with
offset 0 and the pass's mode; else none.  The first conjunct covers a call
answered by the search pass, the second a call that fell through to the
fallback filter pass (whose result — even an empty one — is final). -/
theorem C2_token_precedence (remote : Remote) (fuel qfuel : Nat)
    (opts : SearchOptions) (q : Query) (plan : GraphPlan) (S : CollectResult)
    (trS : List FetchReq) (lgS : List Msg)
    (hq : opts.query = some q)
    (hplan : toGraphFilter qfuel q = Except.ok plan)
    (hft : plan.hasFullText = true)
    (hS : collectClientFilteredPages remote
        (searchPassParams plan (decodeNextPageToken opts.pageToken)
          (buildClientPredicate qfuel q) opts) fuel = some (S, trS, lgS)) :
    (finishCollect S (strL "search") ≠ none →
      searchMessagesModel remote fuel qfuel opts =
        Except.ok (some (⟨S.collected,
          claimTokenSelect S.capHit S.midPageToken S.nextSkipToken
            (strL "search")⟩, trS))) ∧
    (∀ (F : CollectResult) (trF : List FetchReq) (lgF : List Msg) (fraw : Str),
      finishCollect S (strL "search") = none →
      buildQueryFilter qfuel q = Except.ok fraw →
      trimStr fraw ≠ [] →
      collectClientFilteredPages remote
        (fallbackPassParams (trimStr fraw) (buildClientPredicate qfuel q) opts)
        fuel = some (F, trF, lgF) →
      searchMessagesModel remote fuel qfuel opts =
        Except.ok (some (⟨F.collected,
          claimTokenSelect F.capHit F.midPageToken F.nextSkipToken
            (strL "filter")⟩, trS ++ trF))) := by
  obtain ⟨hnextS, hmidS0, -⟩ := collect_spec _ _ _ _ _ _ hS
  have hmidS : S.midPageToken = none ∨ ∃ s, S.midPageToken = some s ∧ s ≠ [] := by
    rcases hmidS0 with h0 | ⟨pcur, pos, m, he, -⟩
    · exact Or.inl h0
    · exact Or.inr ⟨_, he, encodeNextPageToken_ne_nil _ _ _⟩
  constructor
  · intro hne
    simp only [searchMessagesModel, hq]
    rw [hplan]
    simp only []
    rw [if_pos hft, hS]
    simp only []
    rcases finishCollect_claim S (strL "search") hmidS hnextS with hfc | ⟨hfc, -, -, -⟩
    · rw [hfc]
    · exact absurd hfc hne
  · intro F trF lgF fraw hnone hbq htrim hF
    obtain ⟨hnextF, hmidF0, -⟩ := collect_spec _ _ _ _ _ _ hF
    have hmidF : F.midPageToken = none ∨ ∃ s, F.midPageToken = some s ∧ s ≠ [] := by
      rcases hmidF0 with h0 | ⟨pcur, pos, m, he, -⟩
      · exact Or.inl h0
      · exact Or.inr ⟨_, he, encodeNextPageToken_ne_nil _ _ _⟩
    have hSemp : S.collected = [] := by
      rcases finishCollect_claim S (strL "search") hmidS hnextS with hfc | ⟨-, -, hemp, -⟩
      · rw [hfc] at hnone
        cases hnone
      · exact hemp
    simp only [searchMessagesModel, hq]
    rw [hplan]
    simp only []
    rw [if_pos hft, hS]
    simp only []
    rw [hnone]
    simp only []
    rw [hbq]
    simp only []
    rw [if_neg htrim, hF]
    simp only []
    rcases finishCollect_claim F (strL "filter") hmidF hnextF with hfc | ⟨hfc, hclaim, hemp, -⟩
    · rw [hfc]
    · rw [hfc, hclaim, hemp, hSemp]

/-- C2's first conjunct at the concrete mid-page scenario: the mid-page token
wins the precedence. -/
theorem C2_token_precedence_witness :
    searchMessagesModel cxRemoteMid 5 3 cxC2Opts =
      Except.ok (some (⟨cxC2Result.collected,
        claimTokenSelect cxC2Result.capHit cxC2Result.midPageToken
          cxC2Result.nextSkipToken (strL "search")⟩, cxC2Trace)) :=
  (C2_token_precedence cxRemoteMid 5 3 cxC2Opts cxQuerySubjOp cxC2Plan
    cxC2Result cxC2Trace cxC2Log rfl rfl rfl rfl).1
    (fun hn => by
      rw [show finishCollect cxC2Result (strL "search") =
          some ⟨cxC2Result.collected, cxC2Result.midPageToken⟩ from rfl] at hn
      cases hn)

/-- C3 (fast path), corrected.  For a query without full-text intent the call
issues exactly one remote fetch — carrying no search expression, the compiled
structured filter (the trimmed `buildQueryFilter` output, or nothing when it
trims empty), the cursor decoded from the incoming page token and the clamped
page size — applies no client predicate, and returns the page's items with the
remote's own next-cursor passed through UNCHANGED as `nextPageToken` (not
re-encoded through the pagination-token codec, contrary to the claim). -/
theorem C3_fast_path_raw_cursor (remote : Remote) (fuel qfuel : Nat)
    (opts : SearchOptions) (q : Query) (plan : GraphPlan)
    (hq : opts.query = some q)
    (hplan : toGraphFilter qfuel q = Except.ok plan)
    (hft : plan.hasFullText = false) :
    searchMessagesModel remote fuel qfuel opts =
      Except.ok (some
        (⟨(fetchGraphPage remote plan.search plan.filter
              (decodeNextPageToken opts.pageToken).skipToken
              opts.pageSize).messages,
          (fetchGraphPage remote plan.search plan.filter
              (decodeNextPageToken opts.pageToken).skipToken
              opts.pageSize).nextSkipToken⟩,
          [mkReq plan.search plan.filter
            (decodeNextPageToken opts.pageToken).skipToken opts.pageSize])) ∧
    plan.search = none ∧
    (∃ fstr, buildQueryFilter qfuel q = Except.ok fstr ∧
      plan.filter = (if trimStr fstr = [] then none else some (trimStr fstr))) := by
  refine ⟨?_, ?_⟩
  · simp only [searchMessagesModel, hq]
    rw [hplan]
    simp only []
    rw [if_neg (by simp [hft])]
  · unfold toGraphFilter at hplan
    by_cases h1 : truthyS q.kqlQuery = true
    · rw [if_pos h1] at hplan
      cases hplan
      cases hft
    · rw [if_neg h1] at hplan
      by_cases h2 : hasFullTextIntent qfuel q = true
      · rw [if_pos h2] at hplan
        cases hplan
        cases hft
      · rw [if_neg h2] at hplan
        rcases hbq : buildQueryFilter qfuel q with e | fstr
        · rw [hbq] at hplan
          simp only [bind, Except.bind] at hplan
          cases hplan
        · rw [hbq] at hplan
          simp only [bind, Except.bind] at hplan
          cases hplan
          exact ⟨rfl, fstr, rfl, rfl⟩

/-- C3's original sentence is refuted on a concrete non-full-text call: the
returned `nextPageToken` is the remote's raw cursor `abc`, which no codec
encoding can equal (every encoded token starts with the `v2:` tag). -/
theorem C3_fast_path_counterexample :
    searchMessagesModel cxRemoteEmptyCursor 5 3
        ⟨some cxQueryHasAtt, none, none, 50, none⟩ =
      Except.ok (some (⟨[], some (strL "abc")⟩,
        [⟨none, some (strL "hasAttachments eq true"), none, 50⟩])) ∧
    (∀ (cur : Option Str) (off : Int) (md : Option Str),
      encodeNextPageToken cur off md ≠ strL "abc") := by
  refine ⟨rfl, ?_⟩
  intro cur off md h
  obtain ⟨rest, he⟩ := encodeNextPageToken_v2_shape cur off md
  rw [he] at h
  simp [strL] at h

/-- C3's amended statement at the concrete scenario. -/
theorem C3_fast_path_raw_cursor_witness :
    searchMessagesModel cxRemoteEmptyCursor 5 3 cxC3Opts =
      Except.ok (some
        (⟨(fetchGraphPage cxRemoteEmptyCursor cxC3Plan.search cxC3Plan.filter
              (decodeNextPageToken cxC3Opts.pageToken).skipToken
              cxC3Opts.pageSize).messages,
          (fetchGraphPage cxRemoteEmptyCursor cxC3Plan.search cxC3Plan.filter
              (decodeNextPageToken cxC3Opts.pageToken).skipToken
              cxC3Opts.pageSize).nextSkipToken⟩,
          [mkReq cxC3Plan.search cxC3Plan.filter
            (decodeNextPageToken cxC3Opts.pageToken).skipToken
            cxC3Opts.pageSize])) ∧
    cxC3Plan.search = none ∧
    (∃ fstr, buildQueryFilter 3 cxQueryHasAtt = Except.ok fstr ∧
      cxC3Plan.filter = (if trimStr fstr = [] then none else some (trimStr fstr))) :=
  C3_fast_path_raw_cursor cxRemoteEmptyCursor 5 3 cxC3Opts cxQueryHasAtt
    cxC3Plan rfl rfl rfl

/-- C4 (single fallback), corrected.  The fallback fires only when the search
pass ends uncapped with zero accepted items AND the last fetched page offered
no usable next-cursor (the claim's "empty page" stop reason alone does not
suffice: an empty page carrying a cursor is answered with a re-encoded
boundary token instead, see the counterexample).  When it fires and the query
recompiles to a filter with non-empty trim, exactly one fallback scan runs —
with that filter, no search expression, a fresh cursor and offset 0 — and its
outcome is final: the call returns the fallback pass's own result selection,
falling back to an empty result, and never a second fallback (the request
trace is exactly the search pass's requests followed by the fallback
pass's). -/
theorem C4_single_fallback (remote : Remote) (fuel qfuel : Nat)
    (opts : SearchOptions) (q : Query) (plan : GraphPlan) (S F : CollectResult)
    (trS trF : List FetchReq) (lgS lgF : List Msg) (fraw : Str)
    (hq : opts.query = some q)
    (hplan : toGraphFilter qfuel q = Except.ok plan)
    (hft : plan.hasFullText = true)
    (hS : collectClientFilteredPages remote
        (searchPassParams plan (decodeNextPageToken opts.pageToken)
          (buildClientPredicate qfuel q) opts) fuel = some (S, trS, lgS))
    (hcap : S.capHit = false)
    (hnext : truthyS S.nextSkipToken = false)
    (hzero : S.collected = [])
    (hbq : buildQueryFilter qfuel q = Except.ok fraw)
    (htrim : trimStr fraw ≠ [])
    (hF : collectClientFilteredPages remote
        (fallbackPassParams (trimStr fraw) (buildClientPredicate qfuel q) opts)
        fuel = some (F, trF, lgF)) :
    searchMessagesModel remote fuel qfuel opts =
      Except.ok (some ((finishCollect F (strL "filter")).getD
        ⟨F.collected, none⟩, trS ++ trF)) := by
  obtain ⟨hnextS, hmidS0, -⟩ := collect_spec _ _ _ _ _ _ hS
  have hmidS : S.midPageToken = none := by
    rcases hmidS0 with h0 | ⟨pcur, pos, m, he, hj, hl, -⟩
    · exact h0
    · rw [hzero] at hl
      cases hl
  have hmidS' : truthyS S.midPageToken = false := by
    rw [hmidS]
    rfl
  have hfsnone : finishCollect S (strL "search") = none := by
    simp [finishCollect, hcap, hmidS', hnext, hzero]
  simp only [searchMessagesModel, hq]
  rw [hplan]
  simp only []
  rw [if_pos hft, hS]
  simp only []
  rw [hfsnone]
  simp only []
  rw [hbq]
  simp only []
  rw [if_neg htrim, hF]
  simp only []
  rcases hfin : finishCollect F (strL "filter") with _ | r
  · obtain ⟨hnextF, hmidF0, -⟩ := collect_spec _ _ _ _ _ _ hF
    have hmidF : F.midPageToken = none ∨ ∃ s, F.midPageToken = some s ∧ s ≠ [] := by
      rcases hmidF0 with h0 | ⟨pcur, pos, m, he, -⟩
      · exact Or.inl h0
      · exact Or.inr ⟨_, he, encodeNextPageToken_ne_nil _ _ _⟩
    have hFemp : F.collected = [] := by
      rcases finishCollect_claim F (strL "filter") hmidF hnextF with hfc | ⟨-, -, hemp, -⟩
      · rw [hfc] at hfin
        cases hfin
      · exact hemp
    rw [hzero, hFemp]
    rfl
  · rfl

/-- C4's original sentence is refuted on a concrete full-text call: the search
pass exhausts on an EMPTY first page with zero accepted items (conjunct 4),
the query's structural filter recompiles non-empty (conjuncts 2 and 3), yet no
fallback happens — the call returns the empty page's cursor as a re-encoded
boundary token, and its request trace holds exactly the one search request and
no filter request (conjunct 1). -/
theorem C4_single_fallback_counterexample :
    searchMessagesModel cxRemoteEmptyCursor 5 3 cxC4Opts =
      Except.ok (some (⟨[],
        some (encodeNextPageToken (some (strL "abc")) 0 (some (strL "search")))⟩,
        [⟨some (strL "hello"), none, none, 50⟩])) ∧
    buildQueryFilter 3 cxQuerySubject =
      Except.ok (strL "startswith(subject, 'hello')") ∧
    trimStr (strL "startswith(subject, 'hello')") ≠ [] ∧
    (cxRemoteEmptyCursor ⟨some (strL "hello"), none, none, 50⟩).messages = [] :=
  ⟨rfl, rfl, by decide, rfl⟩

/-- C4's amended statement at the concrete fallback scenario. -/
theorem C4_single_fallback_witness :
    searchMessagesModel cxRemoteFallback 5 3 cxC4Opts =
      Except.ok (some ((finishCollect cxC4FallbackResult (strL "filter")).getD
        ⟨cxC4FallbackResult.collected, none⟩,
        cxC4SearchTrace ++ cxC4FallbackTrace)) :=
  C4_single_fallback cxRemoteFallback 5 3 cxC4Opts cxQuerySubject cxC4Plan
    cxC4SearchResult cxC4FallbackResult cxC4SearchTrace cxC4FallbackTrace []
    [cxMsgHello] (strL "startswith(subject, 'hello')") rfl rfl rfl rfl rfl rfl
    rfl rfl (by decide) rfl

/-- Scanning a page of at least four items with `maxItemsScanned = 3` and the
first three failing the predicate trips the cap at the fourth item: nothing
collected, four items inspected. -/
theorem scanItems_three_cap (pred : Msg → Bool) (ps : Nat) (m1 m2 m3 m4 : Msg)
    (rest : List Msg) (h1 : pred m1 = false) (h2 : pred m2 = false)
    (h3 : pred m3 = false) :
    scanItems (some pred) ps (some 3) (m1 :: m2 :: m3 :: m4 :: rest) [] 0 0 =
      ScanRes.cap [] 4 [m1, m2, m3, m4] := by
  simp [scanItems, capScan, rejects, h1, h2, h3, ScanRes.logCons]

/-- C7 (cap enforcement), corrected.  With `maxItemsScanned = 3`, a cap
requires a FOURTH raw item to be reached: when the first fetched page holds at
least four raw items and the first three all fail the predicate, the loop
stops at the fourth item in the capped state — zero collected, the cap flag
set, any cursor discarded — and the full-text call returns zero items and no
continuation token after exactly one fetch.  (Against a source with exactly
three raw items the loop instead ends in the exhausted state, see the
counterexample, so the claim's 3-item scenario is capped only in its outcome,
not its stop reason.) -/
theorem C7_cap_enforcement (remote : Remote) (fuel qfuel : Nat)
    (opts : SearchOptions) (q : Query) (plan : GraphPlan) (P : CollectParams)
    (m1 m2 m3 m4 : Msg) (rest : List Msg)
    (hq : opts.query = some q)
    (hplan : toGraphFilter qfuel q = Except.ok plan)
    (hft : plan.hasFullText = true)
    (hP : P = searchPassParams plan (decodeNextPageToken opts.pageToken)
      (buildClientPredicate qfuel q) opts)
    (hpred : P.predicate = some (buildClientPredicate qfuel q))
    (hps3 : P.maxItemsScanned = some 3)
    (hmp : P.maxPages = none)
    (hoff : P.startOffset = 0)
    (hps : 1 ≤ P.pageSize)
    (hpage : (pageOf remote P P.startSkipToken).messages =
      m1 :: m2 :: m3 :: m4 :: rest)
    (hf1 : buildClientPredicate qfuel q m1 = false)
    (hf2 : buildClientPredicate qfuel q m2 = false)
    (hf3 : buildClientPredicate qfuel q m3 = false) :
    collectClientFilteredPages remote P (fuel + 1) =
      some (⟨[], none, (pageOf remote P P.startSkipToken).nextSkipToken, true⟩,
        [reqOf P P.startSkipToken], [m1, m2, m3, m4]) ∧
    searchMessagesModel remote (fuel + 1) qfuel opts =
      Except.ok (some (⟨[], none⟩, [reqOf P P.startSkipToken])) := by
  have hcol : collectClientFilteredPages remote P (fuel + 1) =
      some (⟨[], none, (pageOf remote P P.startSkipToken).nextSkipToken, true⟩,
        [reqOf P P.startSkipToken], [m1, m2, m3, m4]) := by
    unfold collectClientFilteredPages
    simp only [collectLoop]
    rw [if_neg (by simp only [List.length_nil]; omega)]
    rw [if_neg (by simp [capPages, hmp])]
    rw [if_neg (by rw [hpage]; simp)]
    rw [hoff, hpage, hpred, hps3]
    rw [List.drop_zero, scanItems_three_cap _ _ _ _ _ _ _ hf1 hf2 hf3]
  refine ⟨hcol, ?_⟩
  subst hP
  simp only [searchMessagesModel, hq]
  rw [hplan]
  simp only []
  rw [if_pos hft, hcol]
  rfl

/-- C7's 3-item scenario is refuted: against a source of exactly three raw
items that all fail the predicate, with `maxItemsScanned = 3`, the scan ends
with `capHit = false` — the EXHAUSTED state, the cap never trips — though the
call does return zero items and no token. -/
theorem C7_cap_enforcement_counterexample :
    collectClientFilteredPages cxRemoteThree
        (searchPassParams cxC7Plan (decodeNextPageToken none)
          (buildClientPredicate 3 cxQueryText) cxC7Opts) 5 =
      some (⟨[], none, none, false⟩, [⟨some (strL "zzz"), none, none, 50⟩],
        [cxMsgA, cxMsgB, cxMsgC]) ∧
    searchMessagesModel cxRemoteThree 5 3 cxC7Opts =
      Except.ok (some (⟨[], none⟩, [⟨some (strL "zzz"), none, none, 50⟩])) :=
  ⟨rfl, rfl⟩

/-- C7's amended statement at the concrete four-item scenario. -/
theorem C7_cap_enforcement_witness :
    collectClientFilteredPages cxRemoteFour
        (searchPassParams cxC7Plan (decodeNextPageToken cxC7Opts.pageToken)
          (buildClientPredicate 3 cxQueryText) cxC7Opts) (4 + 1) =
      some (⟨[], none,
        (pageOf cxRemoteFour
          (searchPassParams cxC7Plan (decodeNextPageToken cxC7Opts.pageToken)
            (buildClientPredicate 3 cxQueryText) cxC7Opts)
          (searchPassParams cxC7Plan (decodeNextPageToken cxC7Opts.pageToken)
            (buildClientPredicate 3 cxQueryText) cxC7Opts).startSkipToken).nextSkipToken,
        true⟩,
        [reqOf
          (searchPassParams cxC7Plan (decodeNextPageToken cxC7Opts.pageToken)
            (buildClientPredicate 3 cxQueryText) cxC7Opts)
          (searchPassParams cxC7Plan (decodeNextPageToken cxC7Opts.pageToken)
            (buildClientPredicate 3 cxQueryText) cxC7Opts).startSkipToken],
        [cxMsgA, cxMsgB, cxMsgC, cxMsgD]) ∧
    searchMessagesModel cxRemoteFour (4 + 1) 3 cxC7Opts =
      Except.ok (some (⟨[], none⟩,
        [reqOf
          (searchPassParams cxC7Plan (decodeNextPageToken cxC7Opts.pageToken)
            (buildClientPredicate 3 cxQueryText) cxC7Opts)
          (searchPassParams cxC7Plan (decodeNextPageToken cxC7Opts.pageToken)
            (buildClientPredicate 3 cxQueryText) cxC7Opts).startSkipToken])) :=
  C7_cap_enforcement cxRemoteFour 4 3 cxC7Opts cxQueryText cxC7Plan
    (searchPassParams cxC7Plan (decodeNextPageToken cxC7Opts.pageToken)
      (buildClientPredicate 3 cxQueryText) cxC7Opts)
    cxMsgA cxMsgB cxMsgC cxMsgD [] rfl rfl rfl rfl rfl rfl rfl rfl
    (by decide) rfl rfl rfl rfl

end Outlook
